import Mathlib

/-!
# treewatcher: recursive directory watching on top of a flat notifier

A shallow embedding of `treewatcher.go` (package `treewatcher`) and of the
parts of its collaborators that the code calls: the file system as seen by
`os.Stat`, `os.Lstat` and `filepath.Walk`, and the `fsnotify.Watcher`
notifier with its `Watch` registration call and its two raw channels.

Conventions.

* A path is the list of its components; `filepath.Join path name` is
  `path ++ [name]`.
* The file system is a finite tree. Each node carries the error, if any,
  that the operating system answers for it.
* Channels are lists (oldest element first). Stateful code is written in
  state-passing style; the dispatch goroutine is a labelled transition
  system whose labels are the cases of its `select` and the moves of its
  environment.
* One loop iteration up to the channel send (receive, `os.Stat`,
  `WatchTree`) is one atomic step: the file system does not change while a
  single `WatchTree` walk is in progress.
-/

namespace Treewatcher

/-! ## Paths, errors and the file system -/

/-- A path, as the list of its components. -/
abbrev Path := List String

/-- A Go `error` value. -/
abbrev GoError := String

/-- The part of `os.FileInfo` that the code inspects. -/
structure FileInfo where
  IsDir : Bool
  deriving DecidableEq, Repr

/-- A node of the file system tree.

* `file`: a regular file;
* `symlink st`: a symbolic link; `st` is what `os.Stat` answers when it
  follows the link (`os.Lstat` does not follow it and reports a
  non-directory);
* `noaccess err`: an entry that its parent directory lists but whose
  `lstat` fails with `err`;
* `dir readErr entries`: a directory; `readErr` is the error of reading its
  names, if any, and `entries` are its children in the order in which
  `readDirNames` returns them. -/
inductive Node where
  | file : Node
  | symlink : Except GoError Bool → Node
  | noaccess : GoError → Node
  | dir : Option GoError → List (String × Node) → Node

/-- The error of a path that does not exist. -/
def ErrNotExist : GoError := "no such file or directory"

/-- The `lstat` system call on a node: links are not followed. -/
def Node.lstat : Node → Except GoError FileInfo
  | .file => .ok ⟨false⟩
  | .symlink _ => .ok ⟨false⟩
  | .noaccess err => .error err
  | .dir _ _ => .ok ⟨true⟩

/-- The `stat` system call on a node: links are followed. -/
def Node.stat : Node → Except GoError FileInfo
  | .file => .ok ⟨false⟩
  | .symlink (.ok d) => .ok ⟨d⟩
  | .symlink (.error err) => .error err
  | .noaccess err => .error err
  | .dir _ _ => .ok ⟨true⟩

/-- The first entry called `name` in a directory listing. -/
def lookupEntry (name : String) : List (String × Node) → Option Node
  | [] => none
  | (k, c) :: rest => if k = name then some c else lookupEntry name rest

/-- Path resolution from the root of the file system. -/
def find : Node → Path → Option Node
  | n, [] => some n
  | .dir _ entries, name :: rest =>
    match lookupEntry name entries with
    | some c => find c rest
    | none => none
  | _, _ :: _ => none

/-- Go's `os.Stat`. -/
def osStat (fs : Node) (path : Path) : Except GoError FileInfo :=
  match find fs path with
  | none => .error ErrNotExist
  | some n => n.stat

/-! ## `filepath.Walk` -/

/-- What a `WalkFunc` returns besides `nil`: the sentinel `filepath.SkipDir`
or another error. -/
inductive WalkErr where
  | SkipDir : WalkErr
  | other : GoError → WalkErr
  deriving DecidableEq, Repr

/-- Go's `filepath.WalkFunc`, threading the state `σ` that the callback
mutates: `walkFn path info err`. A `nil` info is `none`. -/
abbrev WalkFunc (σ : Type) := Path → Option FileInfo → Option GoError → σ → σ × Option WalkErr

mutual
/-- Go's `filepath.walk` (standard library, recursive descent).
`walk walkFn path n` is the call `walk(path, info, walkFn)` for the node `n`
at `path`, whose `lstat` succeeded. A directory gets one callback, with the
error of reading its names if there is one, and is entered only when that
read and the callback both succeed. -/
def walk {σ : Type} (walkFn : WalkFunc σ) : Path → Node → σ → σ × Option WalkErr
  | path, .dir readErr entries, s =>
    -- names, err := readDirNames(path); err1 := walkFn(path, info, err)
    let r := walkFn path (some ⟨true⟩) readErr s
    -- if err != nil || err1 != nil { return err1 }
    if readErr.isSome || r.2.isSome then r
    else walkNames walkFn path entries r.1
  | path, .file, s => walkFn path (some ⟨false⟩) none s
  | path, .symlink _, s => walkFn path (some ⟨false⟩) none s
  -- not reached: `walk` is entered only after a successful `lstat`
  | path, .noaccess _, s => walkFn path none none s
/-- The loop `for _, name := range names` of `filepath.walk` over the names
of the directory at `path`. -/
def walkNames {σ : Type} (walkFn : WalkFunc σ) (path : Path) :
    List (String × Node) → σ → σ × Option WalkErr
  | [], s => (s, none)
  | (name, child) :: rest, s =>
    -- filename := Join(path, name); fileInfo, err := lstat(filename)
    match child.lstat with
    | .error err =>
      -- if err := walkFn(filename, fileInfo, err); err != nil && err != SkipDir
      let r := walkFn (path ++ [name]) none (some err) s
      match r.2 with
      | some (.other e) => (r.1, some (.other e))
      | _ => walkNames walkFn path rest r.1
    | .ok fileInfo =>
      let r := walk walkFn (path ++ [name]) child s
      match r.2 with
      | none => walkNames walkFn path rest r.1
      | some err =>
        -- if !fileInfo.IsDir() || err != SkipDir { return err }
        if !fileInfo.IsDir || err ≠ .SkipDir then (r.1, some err)
        else walkNames walkFn path rest r.1
end

/-- Go's `filepath.Walk` (standard library): `Lstat` of the root, then the
descent; one callback for each entry visited. -/
def Walk {σ : Type} (fs : Node) (root : Path) (fn : WalkFunc σ) (s : σ) : σ × Option GoError :=
  let r :=
    match find fs root with
    | none => fn root none (some ErrNotExist) s
    | some n =>
      match n.lstat with
      | .error err => fn root none (some err) s
      | .ok _ => walk fn root n s
  match r.2 with
  | none => (r.1, none)
  | some .SkipDir => (r.1, none)
  | some (.other e) => (r.1, some e)

/-! ## The notifier (`fsnotify.Watcher`) -/

/-- Modelled from the spec: the kinds of a raw event of the external
`fsnotify` package (Create, Modify, Delete, Rename). -/
inductive Op where
  | Create | Modify | Delete | Rename
  deriving DecidableEq, Repr

/-- Modelled from the spec: a raw event of the notifier, the type
`fsnotify.FileEvent` of the external `fsnotify` package: the path it is
about and its kind. -/
structure FileEvent where
  Name : Path
  op : Op
  deriving DecidableEq, Repr

/-- Modelled from the spec: the method `IsCreate` of `fsnotify.FileEvent`. -/
def FileEvent.IsCreate (e : FileEvent) : Bool := e.op == .Create

/-- Modelled from the spec: the notifier, the type `fsnotify.Watcher` of the
external `fsnotify` package: its two raw channels, its watch set (the set of
paths currently registered), whether it has been closed, and the log of
every registration call it has received (in call order; the log is for
specification only). -/
structure Watcher where
  Event : List FileEvent
  Error : List GoError
  watches : List Path
  isClosed : Bool
  calls : List Path

/-- The operating system around the program: the file system tree and, for
every path, the error (if any) with which the notifier answers a
registration of that path. -/
structure Env where
  fs : Node
  regErr : Path → Option GoError

/-- Modelled from the spec: the registration call `watcher.Watch(path)` of
the external `fsnotify` package. It logs the call; it fails with the
notifier's error for that path, if any; on success the path is in the watch
set, which is a set: a path already in it stays once. -/
def Watcher.Watch (env : Env) (w : Watcher) (path : Path) : Watcher × Option GoError :=
  match env.regErr path with
  | some err => ({ w with calls := w.calls ++ [path] }, some err)
  | none =>
    ({ w with calls := w.calls ++ [path],
              watches := if path ∈ w.watches then w.watches else w.watches ++ [path] }, none)

/-- Modelled from the spec: the call `watcher.Close()` of the external
`fsnotify` package, which stops all monitoring. -/
def Watcher.Close (w : Watcher) : Watcher := { w with isClosed := true }

/-! ## The tree watcher -/

/-- A buffered Go channel: its queue and its capacity. -/
structure Chan (α : Type) where
  buf : List α
  cap : Nat

/-- Go's `make(chan α, cap)`. -/
def Chan.make {α : Type} (cap : Nat) : Chan α := ⟨[], cap⟩

/-- A send that does not block: `none` when the buffer is full. -/
def Chan.trySend {α : Type} (c : Chan α) (x : α) : Option (Chan α) :=
  if c.buf.length < c.cap then some { c with buf := c.buf ++ [x] } else none

/-- A receive that does not block: `none` when the buffer is empty. -/
def Chan.tryRecv {α : Type} (c : Chan α) : Option (α × Chan α) :=
  match c.buf with
  | [] => none
  | x :: rest => some (x, { c with buf := rest })

/-- The struct `TreeWatcher`. The channel `quit` is unbuffered: its state is
the number of `Close` calls blocked in `tw.quit <- 1`. -/
structure TreeWatcher where
  Event : Chan FileEvent
  Error : Chan GoError
  quit : Nat
  watcher : Watcher

/-- The callback that `WatchTree` passes to `filepath.Walk`. -/
def watchDirs (env : Env) : WalkFunc Watcher :=
  fun file info _err w =>
    match info with
    | some i => if i.IsDir then ((w.Watch env file).1, none) else (w, none)
    | none => (w, none)

/-- The method `WatchTree`; it has no result besides its effect. -/
def WatchTree (env : Env) (tw : TreeWatcher) (path : Path) : TreeWatcher :=
  let w1 := (tw.watcher.Watch env path).1
  let w2 := (Walk env.fs path (watchDirs env) w1).1
  { tw with watcher := w2 }

/-- The method `Watch`. -/
def Watch (env : Env) (tw : TreeWatcher) (path : Path) : TreeWatcher × Option GoError :=
  let r := tw.watcher.Watch env path
  ({ tw with watcher := r.1 }, r.2)

/-- The constructor `New`; `newWatcher` is the outcome of
`fsnotify.NewWatcher()`. The dispatch goroutine it starts is `Loop.select`
in `System` below. -/
def New (newWatcher : Except GoError Watcher) : Except GoError TreeWatcher :=
  match newWatcher with
  | .error err => .error err
  | .ok watcher => .ok ⟨Chan.make 10, Chan.make 10, 0, watcher⟩

/-! ## The dispatch goroutine and its environment -/

/-- Where the goroutine `fsNotifyHandler` stands: waiting in its `select`,
at the send `tw.Event <- event`, at the send `tw.Error <- err`, or
returned. -/
inductive Loop where
  | select : Loop
  | sendEvent : FileEvent → Loop
  | sendError : GoError → Loop
  | returned : Loop
  deriving DecidableEq, Repr

/-- The two states of the dispatch loop. -/
inductive LoopState where
  | Running | Stopped
  deriving DecidableEq, Repr

/-- The state of the loop at each place of its code. -/
def Loop.state : Loop → LoopState
  | .returned => .Stopped
  | _ => .Running

/-- The body of `case event := <-tw.watcher.Event` before the send: a
created path that stats as a directory is watched as a tree. -/
def handleEvent (env : Env) (tw : TreeWatcher) (event : FileEvent) : TreeWatcher :=
  if event.IsCreate then
    match osStat env.fs event.Name with
    | .ok stat => if stat.IsDir then WatchTree env tw event.Name else tw
    | .error _ => tw
  else tw

/-- Modelled from the spec: the notifier reports a change of `e.Name`. The
raw event is queued when the notifier is open and the directory holding the
path is in the watch set: a registered directory is monitored for its
immediate children, and nothing else is. -/
def Watcher.notify (w : Watcher) (e : FileEvent) : Watcher :=
  if !w.isClosed && decide (e.Name.dropLast ∈ w.watches) then
    { w with Event := w.Event ++ [e] }
  else w

/-- The whole system: the operating system, the tree watcher, the place of
the dispatch goroutine, and four logs kept for specification only: the raw
events the loop has received, the events and errors it has sent on its
outbound channels, and the events the client has taken from `tw.Event`. -/
structure System where
  env : Env
  tw : TreeWatcher
  loop : Loop
  received : List FileEvent
  sent : List FileEvent
  sentErrors : List GoError
  delivered : List FileEvent

/-- The moves of the system. The first four are the dispatch goroutine's:
the three cases of its `select` and the completion of a pending send. The
others are the environment's: a change of the file system that the notifier
may report, a raw error of the notifier, the client taking an event or an
error, the client calling `WatchTree`, `Watch` or `Close`. -/
inductive Action where
  | recvEvent : Action
  | recvError : Action
  | recvQuit : Action
  | send : Action
  | fsOp : Env → FileEvent → Action
  | notifierError : GoError → Action
  | takeEvent : Action
  | takeError : Action
  | callWatchTree : Path → Action
  | callWatch : Path → Action
  | callClose : Action

/-- The moves of the dispatch goroutine. -/
def Action.isLoop : Action → Bool
  | .recvEvent | .recvError | .recvQuit | .send => true
  | _ => false

/-- The client's registration calls. -/
def Action.isRegistration : Action → Bool
  | .callWatchTree _ | .callWatch _ => true
  | _ => false

/-- The method `Close`, up to the point where its caller waits in
`tw.quit <- 1` for the dispatch goroutine to take the signal. -/
def Close (tw : TreeWatcher) : TreeWatcher :=
  { tw with watcher := tw.watcher.Close, quit := tw.quit + 1 }

/-- The goroutine `fsNotifyHandler`, one move at a time: the three cases of
its `select` and the completion of a pending send. `none` when the move is
not enabled: the goroutine is elsewhere, the channel to receive from is
empty, or the buffer to send to is full. -/
def fsNotifyHandler (a : Action) (s : System) : Option System :=
  match a with
  | .recvEvent =>
    -- case event := <-tw.watcher.Event
    match s.loop, s.tw.watcher.Event with
    | .select, event :: rest =>
      let tw1 := { s.tw with watcher := { s.tw.watcher with Event := rest } }
      some { s with tw := handleEvent s.env tw1 event, loop := .sendEvent event,
                    received := s.received ++ [event] }
    | _, _ => none
  | .recvError =>
    -- case err := <-tw.watcher.Error
    match s.loop, s.tw.watcher.Error with
    | .select, err :: rest =>
      some { s with tw := { s.tw with watcher := { s.tw.watcher with Error := rest } },
                    loop := .sendError err }
    | _, _ => none
  | .recvQuit =>
    -- case <-tw.quit: return
    match s.loop, s.tw.quit with
    | .select, n + 1 => some { s with tw := { s.tw with quit := n }, loop := .returned }
    | _, _ => none
  | .send =>
    match s.loop with
    | .sendEvent event =>
      -- tw.Event <- event
      match s.tw.Event.trySend event with
      | some c => some { s with tw := { s.tw with Event := c }, loop := .select,
                                sent := s.sent ++ [event] }
      | none => none
    | .sendError err =>
      -- tw.Error <- err
      match s.tw.Error.trySend err with
      | some c => some { s with tw := { s.tw with Error := c }, loop := .select,
                                sentErrors := s.sentErrors ++ [err] }
      | none => none
    | _ => none
  | _ => none

/-- One move of the system; `none` when the move is not enabled. -/
def step (a : Action) (s : System) : Option System :=
  match a with
  | .recvEvent => fsNotifyHandler .recvEvent s
  | .recvError => fsNotifyHandler .recvError s
  | .recvQuit => fsNotifyHandler .recvQuit s
  | .send => fsNotifyHandler .send s
  | .fsOp env e =>
    some { s with env := env, tw := { s.tw with watcher := s.tw.watcher.notify e } }
  | .notifierError err =>
    some { s with tw := { s.tw with
                          watcher := { s.tw.watcher with Error := s.tw.watcher.Error ++ [err] } } }
  | .takeEvent =>
    match s.tw.Event.tryRecv with
    | some (e, c) => some { s with tw := { s.tw with Event := c }, delivered := s.delivered ++ [e] }
    | none => none
  | .takeError =>
    match s.tw.Error.tryRecv with
    | some (_, c) => some { s with tw := { s.tw with Error := c } }
    | none => none
  | .callWatchTree path => some { s with tw := WatchTree s.env s.tw path }
  | .callWatch path => some { s with tw := (Watch s.env s.tw path).1 }
  | .callClose => some { s with tw := Close s.tw }

/-- A run: the moves of `acts` one after the other, all of them enabled. -/
def run : List Action → System → Option System
  | [], s => some s
  | a :: rest, s =>
    match step a s with
    | some s1 => run rest s1
    | none => none

/-- The system right after `New()` returned `tw`: the goroutine waits in its
`select` and nothing has happened yet. -/
def start (env : Env) (tw : TreeWatcher) : System :=
  ⟨env, tw, .select, [], [], [], []⟩

/-- The event that the dispatch goroutine holds between its receive and its
send, if any. -/
def Loop.inHand : Loop → List FileEvent
  | .sendEvent e => [e]
  | _ => []

/-! ## Specification-side definitions -/

/-- The registration calls of a list of paths, in order. -/
def registerAll (env : Env) (paths : List Path) (w : Watcher) : Watcher :=
  paths.foldl (fun w p => (w.Watch env p).1) w

mutual
/-- The directories that a walk from node `n` at `path` visits, in visiting
order: `n` itself when it is a directory and, when its names can be read,
the directories visited from each of its entries. -/
def walkDirs : Path → Node → List Path
  | path, .dir readErr entries =>
    path :: (if readErr.isSome then [] else walkDirsIn path entries)
  | _, .file => []
  | _, .symlink _ => []
  | _, .noaccess _ => []
/-- The directories visited from the entries of the directory at `path`. -/
def walkDirsIn (path : Path) : List (String × Node) → List Path
  | [] => []
  | (name, child) :: rest => walkDirs (path ++ [name]) child ++ walkDirsIn path rest
end

/-- The directories that `filepath.Walk` visits from `root`. -/
def walkRoot (fs : Node) (root : Path) : List Path :=
  match find fs root with
  | none => []
  | some n => walkDirs root n

/-- The node `m` at path `q` lies in the subtree of `n` at `root` and the walk
from `root` reaches it: every directory strictly above it, from `root`
down, can be read. -/
inductive Reach (root : Path) (n : Node) : Path → Node → Prop where
  | base : Reach root n root n
  | child (p : Path) (name : String) {entries : List (String × Node)} {c : Node} :
      Reach root n p (.dir none entries) → (name, c) ∈ entries →
      Reach root n (p ++ [name]) c

/-- The bookkeeping of the event pipeline: every raw event the loop has
received has been sent or is in its hand; every event sent has been taken by
the client or is in the outbound buffer; the buffer is within its
capacity. -/
def Inv (s : System) : Prop :=
  s.received = s.sent ++ s.loop.inHand ∧
  s.sent = s.delivered ++ s.tw.Event.buf ∧
  s.tw.Event.buf.length ≤ s.tw.Event.cap

/-- The event pipeline, from the client back to the notifier: the events the
client has taken, the outbound queue, the event in the hand of the loop,
and the raw channel. Every raw event the notifier has queued is one entry
of this list, in queueing order, for as long as nothing drops it. -/
def pipeline (s : System) : List FileEvent :=
  s.delivered ++ s.tw.Event.buf ++ s.loop.inHand ++ s.tw.watcher.Event

/-! ## Scenarios -/

/-- A tree: the watched root `T` holds the directory `D`, which holds an
unreadable directory `X` (with a directory `Y` in it), a directory `Z`, a
file `f` and an entry `g` that cannot be statted. -/
def treeT : Node :=
  .dir none [("T", .dir none [("D", .dir none
    [("X", .dir (some "permission denied") [("Y", .dir none [])]),
     ("Z", .dir none []),
     ("f", .file),
     ("g", .noaccess "permission denied")])])]

/-- The tree `treeT` with a notifier that accepts every path. -/
def envT : Env := ⟨treeT, fun _ => none⟩

/-- The tree `treeT` with a notifier that has room for the watch of `T` only
and refuses every other path. -/
def envRefuse : Env :=
  ⟨treeT, fun p => if p = ["T"] then none else some "no space left on device"⟩

/-- A fresh notifier. -/
def watcher0 : Watcher := ⟨[], [], [], false, []⟩

/-- The tree watcher that `New` builds on a fresh notifier. -/
def tw0 : TreeWatcher := ⟨Chan.make 10, Chan.make 10, 0, watcher0⟩

/-- A raw event: the file `T/a` was modified. -/
def evModify : FileEvent := ⟨["T", "a"], .Modify⟩

/-- A run that fills the outbound buffer: the client watches the tree `T`,
eleven changes of `T/a` are reported, the loop forwards ten of them and
takes the eleventh while the client takes nothing. -/
def actsFill : List Action :=
  [.callWatchTree ["T"]] ++ List.replicate 11 (.fsOp envT evModify) ++
    (List.replicate 10 [Action.recvEvent, Action.send]).flatten ++ [.recvEvent]

/-- The state at the end of the run `actsFill`: the buffer holds ten events
and the loop holds the eleventh at its send. -/
def stateFull : System :=
  { env := envT
    tw :=
      { Event := ⟨List.replicate 10 evModify, 10⟩
        Error := ⟨[], 10⟩
        quit := 0
        watcher :=
          { Event := []
            Error := []
            watches := [["T"], ["T", "D"], ["T", "D", "X"], ["T", "D", "Z"]]
            isClosed := false
            calls := [["T"], ["T"], ["T", "D"], ["T", "D", "X"], ["T", "D", "Z"]] } }
    loop := .sendEvent evModify
    received := List.replicate 11 evModify
    sent := List.replicate 10 evModify
    sentErrors := []
    delivered := [] }

/-- A state in which the notifier has a raw error pending. -/
def stateErr : System :=
  start envT { tw0 with watcher := { watcher0 with Error := ["event queue overflow"] } }

/-- A state in which the notifier has pending the raw event of the creation
of `T/gone`, a path that does not exist any more. -/
def stateGone : System :=
  start envT { tw0 with watcher := { watcher0 with Event := [⟨["T", "gone"], .Create⟩] } }

/-- A raw event: the directory `T/D` was created. -/
def evCreateD : FileEvent := ⟨["T", "D"], .Create⟩

/-- A state in which `Close` has closed the notifier and waits to hand over
the shutdown signal: the loop is in its `select`, the creation of `T/D` is
still pending in the notifier and one event waits in the outbound queue. -/
def stateClosing : System :=
  { env := envT
    tw :=
      { Event := ⟨[evModify], 10⟩
        Error := ⟨[], 10⟩
        quit := 1
        watcher :=
          { Event := [evCreateD]
            Error := []
            watches := [["T"]]
            isClosed := true
            calls := [["T"], ["T"]] } }
    loop := .select
    received := [evModify]
    sent := [evModify]
    sentErrors := []
    delivered := [] }

/-- What the environment does after the shutdown: the file system changes,
the notifier reports an error, the client takes the queued event. -/
def actsAfter : List Action :=
  [.fsOp envT evModify, .notifierError "event queue overflow", .takeEvent]

/-- The state after the loop has taken the shutdown signal in `stateClosing`
and the environment has gone through `actsAfter`. -/
def stateAfter : System :=
  { env := envT
    tw :=
      { Event := ⟨[], 10⟩
        Error := ⟨[], 10⟩
        quit := 0
        watcher :=
          { Event := [evCreateD]
            Error := ["event queue overflow"]
            watches := [["T"]]
            isClosed := true
            calls := [["T"], ["T"]] } }
    loop := .returned
    received := [evModify]
    sent := [evModify]
    sentErrors := []
    delivered := [evModify] }

/-- The watched root `T`, empty. -/
def treeT0 : Node := .dir none [("T", .dir none [])]

/-- The tree `treeT0` with a notifier that accepts every path. -/
def envT0 : Env := ⟨treeT0, fun _ => none⟩

/-- A state in which the creation of the directory `T/D` of `treeT` is
pending in the notifier, `T` being watched. -/
def stateCreated : System :=
  start envT { tw0 with watcher := { watcher0 with Event := [evCreateD], watches := [["T"]] } }

/-- A run in which the notifier refuses the new directory: the client
watches the empty tree `T`; the directory `D`, with all that `treeT` holds
in it, is moved into `T`, and the notifier has no room for further watches;
the loop takes the Create event and forwards it. -/
def actsRefuse : List Action :=
  [.callWatchTree ["T"], .fsOp envRefuse evCreateD, .recvEvent, .send]

/-- The state at the end of `actsRefuse` from `start envT0 tw0`. -/
def stateRefused : System :=
  { env := envRefuse
    tw :=
      { Event := ⟨[evCreateD], 10⟩
        Error := ⟨[], 10⟩
        quit := 0
        watcher :=
          { Event := []
            Error := []
            watches := [["T"]]
            isClosed := false
            calls := [["T"], ["T"], ["T", "D"], ["T", "D"], ["T", "D", "X"], ["T", "D", "Z"]] } }
    loop := .select
    received := [evCreateD]
    sent := [evCreateD]
    sentErrors := []
    delivered := [] }

/-- The tree `T` with the new, empty directory `D`. -/
def envD : Env := ⟨.dir none [("T", .dir none [("D", .dir none [])])], fun _ => none⟩

/-- The tree `T` with the directory `D` and the file `F` written in it. -/
def envF : Env := ⟨.dir none [("T", .dir none [("D", .dir none [("F", .file)])])], fun _ => none⟩

/-- A raw event: the file `T/D/F` was created. -/
def evCreateF : FileEvent := ⟨["T", "D", "F"], .Create⟩

/-- A run in which a file is written in a new directory before the loop has
registered that directory: the client watches the empty tree `T`; `T/D` is
created; `T/D/F` is written; the loop takes the Create event of `T/D`,
registers `T/D` and forwards the event; the client takes it. -/
def actsMissed : List Action :=
  [.callWatchTree ["T"], .fsOp envD evCreateD, .fsOp envF evCreateF, .recvEvent, .send,
   .takeEvent]

/-- The state at the end of `actsMissed` from `start envT0 tw0`. -/
def stateMissed : System :=
  { env := envF
    tw :=
      { Event := ⟨[], 10⟩
        Error := ⟨[], 10⟩
        quit := 0
        watcher :=
          { Event := []
            Error := []
            watches := [["T"], ["T", "D"]]
            isClosed := false
            calls := [["T"], ["T"], ["T", "D"], ["T", "D"]] } }
    loop := .select
    received := [evCreateD]
    sent := [evCreateD]
    sentErrors := []
    delivered := [evCreateD] }

/-- A state in which the creation of the empty directory `T/D` is pending
in the notifier, `T` being watched. -/
def stateCreatedD : System :=
  start envD { tw0 with watcher := { watcher0 with Event := [evCreateD], watches := [["T"]] } }

/-- The state after the loop has taken the Create event of `T/D` in
`stateCreatedD`, registered `T/D` and forwarded the event, and the client
has taken it. -/
def stateObserved : System :=
  { env := envD
    tw :=
      { Event := ⟨[], 10⟩
        Error := ⟨[], 10⟩
        quit := 0
        watcher :=
          { Event := []
            Error := []
            watches := [["T"], ["T", "D"]]
            isClosed := false
            calls := [["T", "D"], ["T", "D"]] } }
    loop := .select
    received := [evCreateD]
    sent := [evCreateD]
    sentErrors := []
    delivered := [evCreateD] }

/-! ## Registration calls -/

theorem Watch_calls (env : Env) (w : Watcher) (p : Path) :
    (w.Watch env p).1.calls = w.calls ++ [p] := by
  unfold Watcher.Watch
  cases env.regErr p <;> rfl

theorem Watch_Event (env : Env) (w : Watcher) (p : Path) :
    (w.Watch env p).1.Event = w.Event := by
  unfold Watcher.Watch
  cases env.regErr p <;> rfl

theorem Watch_Error (env : Env) (w : Watcher) (p : Path) :
    (w.Watch env p).1.Error = w.Error := by
  unfold Watcher.Watch
  cases env.regErr p <;> rfl

theorem Watch_isClosed (env : Env) (w : Watcher) (p : Path) :
    (w.Watch env p).1.isClosed = w.isClosed := by
  unfold Watcher.Watch
  cases env.regErr p <;> rfl

theorem Watch_result (env : Env) (w : Watcher) (p : Path) :
    (w.Watch env p).2 = env.regErr p := by
  unfold Watcher.Watch
  cases env.regErr p <;> rfl

theorem Watch_mem_watches (env : Env) (w : Watcher) (p q : Path) :
    q ∈ (w.Watch env p).1.watches ↔ q ∈ w.watches ∨ (q = p ∧ env.regErr p = none) := by
  unfold Watcher.Watch
  cases h : env.regErr p with
  | some err => simp
  | none =>
    by_cases hp : p ∈ w.watches
    · simp only [hp, if_true, and_true]
      constructor
      · intro hq; exact Or.inl hq
      · rintro (hq | rfl)
        · exact hq
        · exact hp
    · simp [hp]

theorem Watch_watches_of_mem (env : Env) (w : Watcher) (p : Path)
    (h : env.regErr p = none → p ∈ w.watches) :
    (w.Watch env p).1.watches = w.watches := by
  unfold Watcher.Watch
  cases hr : env.regErr p with
  | some err => rfl
  | none => simp [h hr]

theorem registerAll_cons (env : Env) (p : Path) (ps : List Path) (w : Watcher) :
    registerAll env (p :: ps) w = registerAll env ps (w.Watch env p).1 := rfl

theorem registerAll_append (env : Env) (ps qs : List Path) (w : Watcher) :
    registerAll env (ps ++ qs) w = registerAll env qs (registerAll env ps w) := by
  simp [registerAll, List.foldl_append]

theorem registerAll_calls (env : Env) (ps : List Path) (w : Watcher) :
    (registerAll env ps w).calls = w.calls ++ ps := by
  induction ps generalizing w with
  | nil => simp [registerAll]
  | cons p ps ih => rw [registerAll_cons, ih, Watch_calls]; simp

theorem registerAll_Event (env : Env) (ps : List Path) (w : Watcher) :
    (registerAll env ps w).Event = w.Event := by
  induction ps generalizing w with
  | nil => rfl
  | cons p ps ih => rw [registerAll_cons, ih, Watch_Event]

theorem registerAll_Error (env : Env) (ps : List Path) (w : Watcher) :
    (registerAll env ps w).Error = w.Error := by
  induction ps generalizing w with
  | nil => rfl
  | cons p ps ih => rw [registerAll_cons, ih, Watch_Error]

theorem registerAll_isClosed (env : Env) (ps : List Path) (w : Watcher) :
    (registerAll env ps w).isClosed = w.isClosed := by
  induction ps generalizing w with
  | nil => rfl
  | cons p ps ih => rw [registerAll_cons, ih, Watch_isClosed]

theorem registerAll_mem_watches (env : Env) (ps : List Path) (w : Watcher) (q : Path) :
    q ∈ (registerAll env ps w).watches ↔ q ∈ w.watches ∨ (q ∈ ps ∧ env.regErr q = none) := by
  induction ps generalizing w with
  | nil => simp [registerAll]
  | cons p ps ih =>
    rw [registerAll_cons, ih, Watch_mem_watches]
    constructor
    · rintro ((h | ⟨rfl, h⟩) | ⟨h1, h2⟩)
      · exact Or.inl h
      · exact Or.inr ⟨List.mem_cons_self _ _, h⟩
      · exact Or.inr ⟨List.mem_cons_of_mem _ h1, h2⟩
    · rintro (h | ⟨h1, h2⟩)
      · exact Or.inl (Or.inl h)
      · rcases List.mem_cons.mp h1 with rfl | h1
        · exact Or.inl (Or.inr ⟨rfl, h2⟩)
        · exact Or.inr ⟨h1, h2⟩

theorem registerAll_watches_of_mem (env : Env) (ps : List Path) (w : Watcher)
    (h : ∀ p ∈ ps, env.regErr p = none → p ∈ w.watches) :
    (registerAll env ps w).watches = w.watches := by
  induction ps generalizing w with
  | nil => rfl
  | cons p ps ih =>
    have hp : (w.Watch env p).1.watches = w.watches :=
      Watch_watches_of_mem env w p (h p (List.mem_cons_self _ _))
    rw [registerAll_cons, ih, hp]
    intro q hq hr
    rw [hp]
    exact h q (List.mem_cons_of_mem _ hq) hr

mutual
/-- A walk with the callback of `WatchTree` registers exactly the
directories it visits and returns no error. -/
theorem walk_watchDirs (env : Env) :
    ∀ (n : Node) (path : Path) (w : Watcher),
      walk (watchDirs env) path n w = (registerAll env (walkDirs path n) w, none)
  | .file, path, w => by simp [walk, walkDirs, watchDirs, registerAll]
  | .symlink _, path, w => by simp [walk, walkDirs, watchDirs, registerAll]
  | .noaccess _, path, w => by simp [walk, walkDirs, watchDirs, registerAll]
  | .dir none entries, path, w => by
    have ih := walkNames_watchDirs env entries path (w.Watch env path).1
    simp [walk, walkDirs, watchDirs, registerAll_cons, ih]
  | .dir (some err) entries, path, w => by
    simp [walk, walkDirs, watchDirs, registerAll]
/-- The loop over the entries of a directory, with the callback of
`WatchTree`. -/
theorem walkNames_watchDirs (env : Env) :
    ∀ (entries : List (String × Node)) (path : Path) (w : Watcher),
      walkNames (watchDirs env) path entries w =
        (registerAll env (walkDirsIn path entries) w, none)
  | [], path, w => by simp [walkNames, walkDirsIn, registerAll]
  | (name, child) :: rest, path, w => by
    have ih1 := walk_watchDirs env child (path ++ [name]) w
    have ih2 := walkNames_watchDirs env rest path
    cases hl : child.lstat with
    | error err =>
      have hd : walkDirs (path ++ [name]) child = [] := by
        cases child <;> simp [Node.lstat] at hl
        simp [walkDirs]
      simp [walkNames, walkDirsIn, hl, hd, watchDirs, ih2]
    | ok info =>
      simp [walkNames, walkDirsIn, hl, ih1, ih2, registerAll_append]
end

theorem Walk_watchDirs (env : Env) (fs : Node) (root : Path) (w : Watcher) :
    Walk fs root (watchDirs env) w = (registerAll env (walkRoot fs root) w, none) := by
  unfold Walk walkRoot
  cases hf : find fs root with
  | none => simp [watchDirs, registerAll]
  | some n =>
    cases hl : n.lstat with
    | error err =>
      have hd : walkDirs root n = [] := by
        cases n <;> simp [Node.lstat] at hl
        simp [walkDirs]
      simp [hl, watchDirs, hd, registerAll]
    | ok info => simp [hl, walk_watchDirs]

/-- The effect of `WatchTree` on the notifier: the registration of `path`,
then of every directory the walk visits. -/
theorem WatchTree_watcher (env : Env) (tw : TreeWatcher) (path : Path) :
    (WatchTree env tw path).watcher =
      registerAll env (path :: walkRoot env.fs path) tw.watcher := by
  simp [WatchTree, Walk_watchDirs, registerAll_cons]

mutual
theorem walkDirs_sub_of_reach_aux :
    ∀ (n : Node) (path : Path) (entries : List (String × Node)) (name : String) (c : Node),
      n = .dir none entries → (name, c) ∈ entries →
      ∀ x ∈ walkDirs (path ++ [name]) c, x ∈ walkDirs path n := by
  intro n path entries name c hn hmem x hx
  subst hn
  simp only [walkDirs, Option.isSome_none, Bool.false_eq_true, if_false, List.mem_cons]
  right
  exact walkDirsIn_mem path entries name c hmem x hx
theorem walkDirsIn_mem :
    ∀ (path : Path) (entries : List (String × Node)) (name : String) (c : Node),
      (name, c) ∈ entries → ∀ x ∈ walkDirs (path ++ [name]) c,
      x ∈ walkDirsIn path entries
  | path, [], name, c, h, x, _ => by simp at h
  | path, (k, d) :: rest, name, c, h, x, hx => by
    simp only [walkDirsIn, List.mem_append]
    rcases List.mem_cons.mp h with heq | hrest
    · left
      cases heq
      exact hx
    · right
      exact walkDirsIn_mem path rest name c hrest x hx
end

theorem walkDirs_of_reach {root : Path} {n : Node} {q : Path} {m : Node}
    (h : Reach root n q m) : ∀ x ∈ walkDirs q m, x ∈ walkDirs root n := by
  induction h with
  | base => intro x hx; exact hx
  | child _ _ _ hmem ih =>
    intro x hx
    exact ih x (walkDirs_sub_of_reach_aux _ _ _ _ _ rfl hmem x hx)

theorem mem_walkRoot_of_reach {fs : Node} {root : Path} {n : Node} {q : Path}
    {readErr : Option GoError} {entries : List (String × Node)}
    (hfind : find fs root = some n) (h : Reach root n q (.dir readErr entries)) :
    q ∈ walkRoot fs root := by
  unfold walkRoot
  rw [hfind]
  exact walkDirs_of_reach h q (by simp [walkDirs])

/-! ## The claims about `WatchTree` and `Watch` -/

/-- After `WatchTree`, a path among its registration calls is in the watch
set exactly when it was there before or the notifier accepts it. -/
theorem WatchTree_mem_watches (env : Env) (tw : TreeWatcher) (path q : Path)
    (hq : q ∈ path :: walkRoot env.fs path) :
    q ∈ (WatchTree env tw path).watcher.watches ↔
      q ∈ tw.watcher.watches ∨ env.regErr q = none := by
  rw [WatchTree_watcher, registerAll_mem_watches]
  simp [hq]

/-- C3. `WatchTree` is exhaustive: the call appends registration calls to
the notifier's log, among them one for `path` itself (whatever `path` is)
and one for every directory of the subtree at `path` that the walk reaches,
at every depth; and each of these paths is in the watch set when the call
returns exactly when it was there before or its registration succeeds. -/
theorem WatchTree_exhaustive (env : Env) (tw : TreeWatcher) (path : Path) :
    (∃ new : List Path,
      (WatchTree env tw path).watcher.calls = tw.watcher.calls ++ new ∧ path ∈ new ∧
      ∀ (n : Node) (q : Path) (readErr : Option GoError) (entries : List (String × Node)),
        find env.fs path = some n → Reach path n q (.dir readErr entries) → q ∈ new) ∧
    (path ∈ (WatchTree env tw path).watcher.watches ↔
      path ∈ tw.watcher.watches ∨ env.regErr path = none) ∧
    (∀ (n : Node) (q : Path) (readErr : Option GoError) (entries : List (String × Node)),
      find env.fs path = some n → Reach path n q (.dir readErr entries) →
      (q ∈ (WatchTree env tw path).watcher.watches ↔
        q ∈ tw.watcher.watches ∨ env.regErr q = none)) := by
  rw [WatchTree_watcher]
  refine ⟨⟨path :: walkRoot env.fs path, registerAll_calls _ _ _, List.mem_cons_self _ _, ?_⟩,
    ?_, ?_⟩
  · intro n q readErr entries hfind hreach
    exact List.mem_cons_of_mem _ (mem_walkRoot_of_reach hfind hreach)
  · rw [registerAll_mem_watches]
    simp
  · intro n q readErr entries hfind hreach
    rw [registerAll_mem_watches]
    have hq : q ∈ path :: walkRoot env.fs path :=
      List.mem_cons_of_mem _ (mem_walkRoot_of_reach hfind hreach)
    simp [hq]

/-- C3, at the tree `treeT` from `T`: the directory `T/D/Z`, two levels
down, is in the watch set when `WatchTree` returns. -/
theorem WatchTree_exhaustive_witness :
    find envT.fs ["T"] = some (.dir none [("D", .dir none
      [("X", .dir (some "permission denied") [("Y", .dir none [])]),
       ("Z", .dir none []),
       ("f", .file),
       ("g", .noaccess "permission denied")])]) ∧
    (["T", "D", "Z"] ∈ (WatchTree envT tw0 ["T"]).watcher.watches ↔
      ["T", "D", "Z"] ∈ tw0.watcher.watches ∨ envT.regErr ["T", "D", "Z"] = none) :=
  ⟨rfl, (WatchTree_exhaustive envT tw0 ["T"]).2.2 _ ["T", "D", "Z"] none [] rfl
    (Reach.child ["T", "D"] "Z"
      (Reach.child ["T"] "D" Reach.base (List.Mem.head _))
      (List.Mem.tail _ (List.Mem.head _)))⟩

/-- C6. `WatchTree` is best-effort: its walk reports no error, whatever
fails; its registration calls are `path` followed by the directories the
walk visits, the same ones whichever registrations the notifier refuses; in
the loop over a directory an entry that cannot be statted is skipped, a
directory that cannot be read is registered and not entered, and after
every entry the loop goes on with the entries that follow. -/
theorem WatchTree_best_effort (env : Env) (tw : TreeWatcher) (path : Path) :
    (∀ w : Watcher, (Walk env.fs path (watchDirs env) w).2 = none) ∧
    (WatchTree env tw path).watcher.calls = tw.watcher.calls ++ path :: walkRoot env.fs path ∧
    (∀ regErr : Path → Option GoError,
      (WatchTree ⟨env.fs, regErr⟩ tw path).watcher.calls = (WatchTree env tw path).watcher.calls) ∧
    (∀ (dir : Path) (name : String) (child : Node) (rest : List (String × Node)) (w : Watcher)
        (err : GoError), child.lstat = .error err →
      walkNames (watchDirs env) dir ((name, child) :: rest) w =
        walkNames (watchDirs env) dir rest w) ∧
    (∀ (dir : Path) (name : String) (err : GoError) (sub rest : List (String × Node))
        (w : Watcher),
      walkNames (watchDirs env) dir ((name, .dir (some err) sub) :: rest) w =
        walkNames (watchDirs env) dir rest (w.Watch env (dir ++ [name])).1) ∧
    (∀ (dir : Path) (name : String) (child : Node) (rest : List (String × Node)) (w : Watcher)
        (info : FileInfo), child.lstat = .ok info →
      walkNames (watchDirs env) dir ((name, child) :: rest) w =
        walkNames (watchDirs env) dir rest (walk (watchDirs env) (dir ++ [name]) child w).1) := by
  refine ⟨?_, ?_, ?_, ?_, ?_, ?_⟩
  · intro w
    rw [Walk_watchDirs]
  · rw [WatchTree_watcher, registerAll_calls]
  · intro regErr
    rw [WatchTree_watcher, WatchTree_watcher, registerAll_calls, registerAll_calls]
  · intro dir name child rest w err hl
    simp [walkNames, hl, watchDirs]
  · intro dir name err sub rest w
    simp [walkNames, Node.lstat, walk, watchDirs]
  · intro dir name child rest w info hl
    simp [walkNames, hl, walk_watchDirs]

/-- C6, in the directory `T/D` of `treeT`: the entry `g`, which cannot be
statted, is skipped and the loop goes on with the directory `Z` after it,
which is registered. -/
theorem WatchTree_best_effort_witness :
    (Node.noaccess "permission denied").lstat = .error "permission denied" ∧
    walkNames (watchDirs envRefuse) ["T", "D"]
        [("g", .noaccess "permission denied"), ("Z", .dir none [])] watcher0 =
      walkNames (watchDirs envRefuse) ["T", "D"] [("Z", .dir none [])] watcher0 ∧
    (walkNames (watchDirs envRefuse) ["T", "D"]
        [("g", .noaccess "permission denied"), ("Z", .dir none [])] watcher0).1.calls =
      [["T", "D", "Z"]] :=
  ⟨rfl, (WatchTree_best_effort envRefuse tw0 ["T"]).2.2.2.1 ["T", "D"] "g"
    (.noaccess "permission denied") [("Z", .dir none [])] watcher0 "permission denied" rfl,
    by decide⟩

/-- C7. `Watch` makes exactly one registration call, for `path`, and returns
the notifier's answer for it: an error exactly when the registration fails,
and then the notifier's error itself. Only `path` can join the watch set,
and nothing else of the tree watcher changes. -/
theorem Watch_single (env : Env) (tw : TreeWatcher) (path : Path) :
    (Watch env tw path).1.watcher.calls = tw.watcher.calls ++ [path] ∧
    (Watch env tw path).2 = (tw.watcher.Watch env path).2 ∧
    (Watch env tw path).2 = env.regErr path ∧
    ((Watch env tw path).2 = none ↔ env.regErr path = none) ∧
    (∀ q : Path, q ∈ (Watch env tw path).1.watcher.watches ↔
      q ∈ tw.watcher.watches ∨ (q = path ∧ env.regErr path = none)) ∧
    (Watch env tw path).1.Event = tw.Event ∧ (Watch env tw path).1.Error = tw.Error ∧
    (Watch env tw path).1.quit = tw.quit ∧
    (Watch env tw path).1.watcher.Event = tw.watcher.Event ∧
    (Watch env tw path).1.watcher.Error = tw.watcher.Error := by
  refine ⟨?_, rfl, ?_, ?_, ?_, rfl, rfl, rfl, ?_, ?_⟩
  · exact Watch_calls env tw.watcher path
  · exact Watch_result env tw.watcher path
  · show (tw.watcher.Watch env path).2 = none ↔ _
    rw [Watch_result]
  · intro q
    exact Watch_mem_watches env tw.watcher path q
  · exact Watch_Event env tw.watcher path
  · exact Watch_Error env tw.watcher path

/-- C9. Re-registration is idempotent: with the same file system and
notifier answers, a second `WatchTree(path)` leaves the watch set of the
first call unchanged; it only repeats the registration calls of the first;
it touches no channel; and the notifier reports every later change exactly
as it would after a single call. -/
theorem WatchTree_idempotent (env : Env) (tw : TreeWatcher) (path : Path) :
    (WatchTree env (WatchTree env tw path) path).watcher.watches =
      (WatchTree env tw path).watcher.watches ∧
    (WatchTree env tw path).watcher.calls =
      tw.watcher.calls ++ path :: walkRoot env.fs path ∧
    (WatchTree env (WatchTree env tw path) path).watcher.calls =
      (WatchTree env tw path).watcher.calls ++ path :: walkRoot env.fs path ∧
    (WatchTree env (WatchTree env tw path) path).watcher.Event =
      (WatchTree env tw path).watcher.Event ∧
    (WatchTree env (WatchTree env tw path) path).Event = (WatchTree env tw path).Event ∧
    (∀ e : FileEvent,
      ((WatchTree env (WatchTree env tw path) path).watcher.notify e).Event =
        ((WatchTree env tw path).watcher.notify e).Event) := by
  have hw : (WatchTree env (WatchTree env tw path) path).watcher.watches =
      (WatchTree env tw path).watcher.watches := by
    rw [WatchTree_watcher env (WatchTree env tw path)]
    apply registerAll_watches_of_mem
    intro p hp hr
    rw [WatchTree_watcher, registerAll_mem_watches]
    exact Or.inr ⟨hp, hr⟩
  have he : (WatchTree env (WatchTree env tw path) path).watcher.Event =
      (WatchTree env tw path).watcher.Event := by
    rw [WatchTree_watcher env (WatchTree env tw path), registerAll_Event]
  have hc : (WatchTree env (WatchTree env tw path) path).watcher.isClosed =
      (WatchTree env tw path).watcher.isClosed := by
    rw [WatchTree_watcher env (WatchTree env tw path), registerAll_isClosed]
  refine ⟨hw, ?_, ?_, he, rfl, ?_⟩
  · rw [WatchTree_watcher, registerAll_calls]
  · rw [WatchTree_watcher env (WatchTree env tw path), registerAll_calls]
  · intro e
    unfold Watcher.notify
    rw [hw, hc]
    split <;> simp [he]

/-! ## The dispatch loop -/

/-- The handling of a raw event only makes registration calls. -/
theorem handleEvent_eq (env : Env) (tw : TreeWatcher) (e : FileEvent) :
    ∃ ps : List Path, handleEvent env tw e = { tw with watcher := registerAll env ps tw.watcher } := by
  unfold handleEvent
  split
  · split
    · split
      · refine ⟨e.Name :: walkRoot env.fs e.Name, ?_⟩
        rw [← WatchTree_watcher]
        rfl
      · exact ⟨[], rfl⟩
    · exact ⟨[], rfl⟩
  · exact ⟨[], rfl⟩

theorem handleEvent_create_dir (env : Env) (tw : TreeWatcher) (e : FileEvent) (info : FileInfo)
    (hc : e.IsCreate = true) (hs : osStat env.fs e.Name = .ok info) (hd : info.IsDir = true) :
    handleEvent env tw e = WatchTree env tw e.Name := by
  simp [handleEvent, hc, hs, hd]

theorem handleEvent_other (env : Env) (tw : TreeWatcher) (e : FileEvent)
    (h : e.IsCreate = false ∨ (∃ err, osStat env.fs e.Name = .error err) ∨
      (∃ info, osStat env.fs e.Name = .ok info ∧ info.IsDir = false)) :
    handleEvent env tw e = tw := by
  unfold handleEvent
  rcases h with h | ⟨err, h⟩ | ⟨info, h, hd⟩
  · simp [h]
  · simp [h]
  · simp [h, hd]

/-- What a move does to the notifier: registration calls, a raw event or
error queued or taken, or closing. In every case the log of calls grows at
its end and the watch set keeps its paths. -/
theorem step_watcher (a : Action) (s s1 : System) (h : step a s = some s1) :
    (∃ more, s1.tw.watcher.calls = s.tw.watcher.calls ++ more) ∧
    (∀ q ∈ s.tw.watcher.watches, q ∈ s1.tw.watcher.watches) ∧
    (a.isRegistration = false → a ≠ .recvEvent →
      s1.tw.watcher.calls = s.tw.watcher.calls ∧ s1.tw.watcher.watches = s.tw.watcher.watches) := by
  cases a with
  | recvEvent =>
    simp only [step, fsNotifyHandler] at h
    split at h
    · rename_i event rest hl hq
      cases h
      obtain ⟨ps, hps⟩ := handleEvent_eq s.env
        { s.tw with watcher := { s.tw.watcher with Event := rest } } event
      simp only [hps]
      refine ⟨⟨ps, by rw [registerAll_calls]⟩, ?_, by simp⟩
      intro q hq
      rw [registerAll_mem_watches]
      exact Or.inl hq
    · cases h
  | recvError =>
    simp only [step, fsNotifyHandler] at h
    split at h
    · cases h; exact ⟨⟨[], by simp⟩, fun q hq => hq, fun _ _ => ⟨rfl, rfl⟩⟩
    · cases h
  | recvQuit =>
    simp only [step, fsNotifyHandler] at h
    split at h
    · cases h; exact ⟨⟨[], by simp⟩, fun q hq => hq, fun _ _ => ⟨rfl, rfl⟩⟩
    · cases h
  | send =>
    simp only [step, fsNotifyHandler] at h
    split at h
    · split at h
      · cases h; exact ⟨⟨[], by simp⟩, fun q hq => hq, fun _ _ => ⟨rfl, rfl⟩⟩
      · cases h
    · split at h
      · cases h; exact ⟨⟨[], by simp⟩, fun q hq => hq, fun _ _ => ⟨rfl, rfl⟩⟩
      · cases h
    · cases h
  | fsOp env e =>
    simp only [step, fsNotifyHandler] at h
    cases h
    have hn : (s.tw.watcher.notify e).calls = s.tw.watcher.calls ∧
        (s.tw.watcher.notify e).watches = s.tw.watcher.watches := by
      unfold Watcher.notify
      split <;> exact ⟨rfl, rfl⟩
    exact ⟨⟨[], by simp [hn.1]⟩, fun q hq => by simpa [hn.2] using hq, fun _ _ => hn⟩
  | notifierError err =>
    simp only [step, fsNotifyHandler] at h
    cases h; exact ⟨⟨[], by simp⟩, fun q hq => hq, fun _ _ => ⟨rfl, rfl⟩⟩
  | takeEvent =>
    simp only [step, fsNotifyHandler] at h
    split at h
    · cases h; exact ⟨⟨[], by simp⟩, fun q hq => hq, fun _ _ => ⟨rfl, rfl⟩⟩
    · cases h
  | takeError =>
    simp only [step, fsNotifyHandler] at h
    split at h
    · cases h; exact ⟨⟨[], by simp⟩, fun q hq => hq, fun _ _ => ⟨rfl, rfl⟩⟩
    · cases h
  | callWatchTree path =>
    simp only [step, fsNotifyHandler] at h
    cases h
    simp only [WatchTree_watcher]
    refine ⟨⟨path :: walkRoot s.env.fs path, by rw [registerAll_calls]⟩, ?_, by simp [Action.isRegistration]⟩
    intro q hq
    rw [registerAll_mem_watches]
    exact Or.inl hq
  | callWatch path =>
    simp only [step, fsNotifyHandler] at h
    cases h
    refine ⟨⟨[path], Watch_calls _ _ _⟩, ?_, by simp [Action.isRegistration]⟩
    intro q hq
    exact (Watch_mem_watches _ _ _ _).mpr (Or.inl hq)
  | callClose =>
    simp only [step, fsNotifyHandler] at h
    cases h; exact ⟨⟨[], by simp [Close, Watcher.Close]⟩, fun q hq => hq, fun _ _ => ⟨rfl, rfl⟩⟩

theorem trySend_some {α : Type} (c c1 : Chan α) (x : α) (h : c.trySend x = some c1) :
    c.buf.length < c.cap ∧ c1.buf = c.buf ++ [x] ∧ c1.cap = c.cap := by
  unfold Chan.trySend at h
  split at h
  · cases h; exact ⟨by assumption, rfl, rfl⟩
  · cases h

theorem tryRecv_some {α : Type} (c c1 : Chan α) (x : α) (h : c.tryRecv = some (x, c1)) :
    c.buf = x :: c1.buf ∧ c1.cap = c.cap := by
  unfold Chan.tryRecv at h
  split at h
  · cases h
  · rename_i y rest hb
    cases h
    exact ⟨hb, rfl⟩

/-- Every move keeps the bookkeeping of the pipeline. -/
theorem step_inv (a : Action) (s s1 : System) (h : step a s = some s1) (hinv : Inv s) :
    Inv s1 := by
  obtain ⟨h1, h2, h3⟩ := hinv
  cases a with
  | recvEvent =>
    simp only [step, fsNotifyHandler] at h
    split at h
    · rename_i event rest hl hq
      cases h
      obtain ⟨ps, hps⟩ := handleEvent_eq s.env
        { s.tw with watcher := { s.tw.watcher with Event := rest } } event
      simp only [Inv, hps, Loop.inHand]
      rw [hl] at h1
      simp only [Loop.inHand, List.append_nil] at h1
      exact ⟨by rw [h1], h2, h3⟩
    · cases h
  | recvError =>
    simp only [step, fsNotifyHandler] at h
    split at h
    · rename_i err rest hl hq
      cases h
      rw [hl] at h1
      exact ⟨h1, h2, h3⟩
    · cases h
  | recvQuit =>
    simp only [step, fsNotifyHandler] at h
    split at h
    · rename_i n hl hq
      cases h
      rw [hl] at h1
      exact ⟨h1, h2, h3⟩
    · cases h
  | send =>
    simp only [step, fsNotifyHandler] at h
    split at h
    · rename_i event hl
      split at h
      · rename_i c hc
        cases h
        obtain ⟨hlt, hbuf, hcap⟩ := trySend_some _ _ _ hc
        rw [hl] at h1
        simp only [Inv, Loop.inHand, List.append_nil, hbuf, hcap]
        refine ⟨h1, by rw [h2, List.append_assoc], ?_⟩
        simp only [List.length_append, List.length_singleton]
        omega
      · cases h
    · rename_i err hl
      split at h
      · cases h
        rw [hl] at h1
        exact ⟨h1, h2, h3⟩
      · cases h
    · cases h
  | fsOp env e =>
    simp only [step, fsNotifyHandler] at h
    cases h
    exact ⟨h1, h2, h3⟩
  | notifierError err =>
    simp only [step, fsNotifyHandler] at h
    cases h
    exact ⟨h1, h2, h3⟩
  | takeEvent =>
    simp only [step, fsNotifyHandler] at h
    split at h
    · rename_i e c hc
      cases h
      obtain ⟨hbuf, hcap⟩ := tryRecv_some _ _ _ hc
      simp only [Inv, hcap]
      rw [hbuf] at h2 h3
      refine ⟨h1, by rw [h2]; simp, ?_⟩
      simp only [List.length_cons] at h3
      omega
    · cases h
  | takeError =>
    simp only [step, fsNotifyHandler] at h
    split at h
    · cases h
      exact ⟨h1, h2, h3⟩
    · cases h
  | callWatchTree path =>
    simp only [step, fsNotifyHandler] at h
    cases h
    exact ⟨h1, h2, h3⟩
  | callWatch path =>
    simp only [step, fsNotifyHandler] at h
    cases h
    exact ⟨h1, h2, h3⟩
  | callClose =>
    simp only [step, fsNotifyHandler] at h
    cases h
    exact ⟨h1, h2, h3⟩

/-- No move changes the capacity of the outbound channels. -/
theorem step_cap (a : Action) (s s1 : System) (h : step a s = some s1) :
    s1.tw.Event.cap = s.tw.Event.cap ∧ s1.tw.Error.cap = s.tw.Error.cap := by
  cases a with
  | recvEvent =>
    simp only [step, fsNotifyHandler] at h
    split at h
    · rename_i event rest hl hq
      cases h
      obtain ⟨ps, hps⟩ := handleEvent_eq s.env
        { s.tw with watcher := { s.tw.watcher with Event := rest } } event
      rw [hps]
      exact ⟨rfl, rfl⟩
    · cases h
  | recvError =>
    simp only [step, fsNotifyHandler] at h
    split at h
    · cases h; exact ⟨rfl, rfl⟩
    · cases h
  | recvQuit =>
    simp only [step, fsNotifyHandler] at h
    split at h
    · cases h; exact ⟨rfl, rfl⟩
    · cases h
  | send =>
    simp only [step, fsNotifyHandler] at h
    split at h
    · split at h
      · rename_i c hc
        cases h
        exact ⟨(trySend_some _ _ _ hc).2.2, rfl⟩
      · cases h
    · split at h
      · rename_i c hc
        cases h
        exact ⟨rfl, (trySend_some _ _ _ hc).2.2⟩
      · cases h
    · cases h
  | fsOp env e => simp only [step, fsNotifyHandler] at h; cases h; exact ⟨rfl, rfl⟩
  | notifierError err => simp only [step, fsNotifyHandler] at h; cases h; exact ⟨rfl, rfl⟩
  | takeEvent =>
    simp only [step, fsNotifyHandler] at h
    split at h
    · rename_i e c hc
      cases h
      exact ⟨(tryRecv_some _ _ _ hc).2, rfl⟩
    · cases h
  | takeError =>
    simp only [step, fsNotifyHandler] at h
    split at h
    · rename_i e c hc
      cases h
      exact ⟨rfl, (tryRecv_some _ _ _ hc).2⟩
    · cases h
  | callWatchTree path => simp only [step, fsNotifyHandler] at h; cases h; exact ⟨rfl, rfl⟩
  | callWatch path => simp only [step, fsNotifyHandler] at h; cases h; exact ⟨rfl, rfl⟩
  | callClose => simp only [step, fsNotifyHandler] at h; cases h; exact ⟨rfl, rfl⟩

theorem run_cons (a : Action) (acts : List Action) (s s2 : System)
    (h : run (a :: acts) s = some s2) : ∃ s1, step a s = some s1 ∧ run acts s1 = some s2 := by
  simp only [run] at h
  split at h
  · rename_i s1 hs
    exact ⟨s1, hs, h⟩
  · cases h

theorem run_inv (acts : List Action) (s s1 : System) (h : run acts s = some s1)
    (hinv : Inv s) : Inv s1 ∧ s1.tw.Event.cap = s.tw.Event.cap := by
  induction acts generalizing s with
  | nil => simp only [run] at h; cases h; exact ⟨hinv, rfl⟩
  | cons a acts ih =>
    obtain ⟨s0, hs, hr⟩ := run_cons a acts s s1 h
    obtain ⟨hi, hc⟩ := ih s0 hr (step_inv a s s0 hs hinv)
    exact ⟨hi, by rw [hc, (step_cap a s s0 hs).1]⟩

/-- A move of the environment leaves the dispatch goroutine where it is and
its logs as they are; it can only take from the front of the outbound
buffers and add at the end of the raw channels. -/
theorem step_env (a : Action) (s s1 : System) (h : step a s = some s1)
    (ha : a.isLoop = false) :
    s1.loop = s.loop ∧ s1.sent = s.sent ∧ s1.received = s.received ∧
    s1.sentErrors = s.sentErrors ∧
    (∃ k, s1.tw.Event.buf = s.tw.Event.buf.drop k) ∧
    (∃ k, s1.tw.Error.buf = s.tw.Error.buf.drop k) ∧
    (∃ more, s1.tw.watcher.Event = s.tw.watcher.Event ++ more) ∧
    (∃ more, s1.tw.watcher.Error = s.tw.watcher.Error ++ more) := by
  cases a with
  | recvEvent => simp [Action.isLoop] at ha
  | recvError => simp [Action.isLoop] at ha
  | recvQuit => simp [Action.isLoop] at ha
  | send => simp [Action.isLoop] at ha
  | fsOp env e =>
    simp only [step, fsNotifyHandler] at h
    cases h
    refine ⟨rfl, rfl, rfl, rfl, ⟨0, rfl⟩, ⟨0, rfl⟩, ?_, ?_⟩
    · unfold Watcher.notify
      split
      · exact ⟨[e], rfl⟩
      · exact ⟨[], by simp⟩
    · unfold Watcher.notify
      split <;> exact ⟨[], by simp⟩
  | notifierError err =>
    simp only [step, fsNotifyHandler] at h
    cases h
    exact ⟨rfl, rfl, rfl, rfl, ⟨0, rfl⟩, ⟨0, rfl⟩, ⟨[], by simp⟩, ⟨[err], rfl⟩⟩
  | takeEvent =>
    simp only [step, fsNotifyHandler] at h
    split at h
    · rename_i e c hc
      cases h
      refine ⟨rfl, rfl, rfl, rfl, ⟨1, ?_⟩, ⟨0, rfl⟩, ⟨[], by simp⟩, ⟨[], by simp⟩⟩
      rw [(tryRecv_some _ _ _ hc).1]
      rfl
    · cases h
  | takeError =>
    simp only [step, fsNotifyHandler] at h
    split at h
    · rename_i e c hc
      cases h
      refine ⟨rfl, rfl, rfl, rfl, ⟨0, rfl⟩, ⟨1, ?_⟩, ⟨[], by simp⟩, ⟨[], by simp⟩⟩
      rw [(tryRecv_some _ _ _ hc).1]
      rfl
    · cases h
  | callWatchTree path =>
    simp only [step, fsNotifyHandler] at h
    cases h
    refine ⟨rfl, rfl, rfl, rfl, ⟨0, rfl⟩, ⟨0, rfl⟩, ⟨[], ?_⟩, ⟨[], ?_⟩⟩
    · simp [WatchTree_watcher, registerAll_Event]
    · simp [WatchTree_watcher, registerAll_Error]
  | callWatch path =>
    simp only [step, fsNotifyHandler] at h
    cases h
    refine ⟨rfl, rfl, rfl, rfl, ⟨0, rfl⟩, ⟨0, rfl⟩, ⟨[], ?_⟩, ⟨[], ?_⟩⟩
    · simp [Watch, Watch_Event]
    · simp [Watch, Watch_Error]
  | callClose =>
    simp only [step, fsNotifyHandler] at h
    cases h
    exact ⟨rfl, rfl, rfl, rfl, ⟨0, rfl⟩, ⟨0, rfl⟩, ⟨[], by simp [Close, Watcher.Close]⟩,
      ⟨[], by simp [Close, Watcher.Close]⟩⟩

/-- The moves of the dispatch goroutine, from where it stands: taking a raw
event, a raw error or the shutdown signal needs the goroutine in its
`select`; completing a send needs it at that send. -/
theorem step_loop (a : Action) (s s1 : System) (h : step a s = some s1)
    (ha : a.isLoop = true) :
    (s.loop = .select ∧
      ((a = .recvEvent ∧ ∃ e, s1.loop = .sendEvent e) ∨
       (a = .recvError ∧ ∃ err, s1.loop = .sendError err) ∨
       (a = .recvQuit ∧ s1.loop = .returned))) ∨
    (a = .send ∧ s1.loop = .select ∧
      ((∃ e, s.loop = .sendEvent e ∧ s1.tw.Event.buf = s.tw.Event.buf ++ [e] ∧
          s1.sent = s.sent ++ [e] ∧ s1.received = s.received ∧ s1.tw.Error = s.tw.Error ∧
          s1.sentErrors = s.sentErrors ∧ s1.tw.watcher = s.tw.watcher) ∨
       (∃ err, s.loop = .sendError err ∧ s1.tw.Error.buf = s.tw.Error.buf ++ [err] ∧
          s1.sentErrors = s.sentErrors ++ [err] ∧ s1.sent = s.sent ∧
          s1.received = s.received ∧ s1.tw.Event = s.tw.Event ∧
          s1.tw.watcher = s.tw.watcher))) := by
  cases a with
  | recvEvent =>
    simp only [step, fsNotifyHandler] at h
    split at h
    · rename_i event rest hl hq
      cases h
      exact Or.inl ⟨hl, Or.inl ⟨rfl, event, rfl⟩⟩
    · cases h
  | recvError =>
    simp only [step, fsNotifyHandler] at h
    split at h
    · rename_i err rest hl hq
      cases h
      exact Or.inl ⟨hl, Or.inr (Or.inl ⟨rfl, err, rfl⟩)⟩
    · cases h
  | recvQuit =>
    simp only [step, fsNotifyHandler] at h
    split at h
    · rename_i n hl hq
      cases h
      exact Or.inl ⟨hl, Or.inr (Or.inr ⟨rfl, rfl⟩)⟩
    · cases h
  | send =>
    simp only [step, fsNotifyHandler] at h
    split at h
    · rename_i event hl
      split at h
      · rename_i c hc
        cases h
        exact Or.inr ⟨rfl, rfl, Or.inl ⟨event, hl, (trySend_some _ _ _ hc).2.1, rfl, rfl, rfl,
          rfl, rfl⟩⟩
      · cases h
    · rename_i err hl
      split at h
      · rename_i c hc
        cases h
        exact Or.inr ⟨rfl, rfl, Or.inr ⟨err, hl, (trySend_some _ _ _ hc).2.1, rfl, rfl, rfl,
          rfl, rfl⟩⟩
      · cases h
    · cases h
  | fsOp env e => simp [Action.isLoop] at ha
  | notifierError err => simp [Action.isLoop] at ha
  | takeEvent => simp [Action.isLoop] at ha
  | takeError => simp [Action.isLoop] at ha
  | callWatchTree path => simp [Action.isLoop] at ha
  | callWatch path => simp [Action.isLoop] at ha
  | callClose => simp [Action.isLoop] at ha

/-- A send on a channel with room goes through. -/
theorem trySend_room {α : Type} (c : Chan α) (x : α) (h : c.buf.length < c.cap) :
    c.trySend x = some { c with buf := c.buf ++ [x] } := by
  simp [Chan.trySend, h]

/-- A send on a full channel blocks. -/
theorem trySend_full {α : Type} (c : Chan α) (x : α) (h : c.cap ≤ c.buf.length) :
    c.trySend x = none := by
  simp [Chan.trySend, Nat.not_lt.mpr h]

/-- C4. No loss, no duplication, no reordering: in every state of every run
from `New()`, the raw events the loop has received are the events it has
sent on `tw.Event`, in the same order, followed by the one it holds at its
send, if any (so the two sequences are equal whenever the loop holds
nothing); the events sent are those the client has taken followed by the
queue; the queue has capacity 10 and never holds more. While the loop holds
an event: with a full queue no move of the loop is enabled (it blocks);
with room the send appends that very event; and every other move leaves the
event in the hand of the loop. -/
theorem dispatch_no_loss (env : Env) (w : Watcher) (tw : TreeWatcher)
    (hnew : New (.ok w) = .ok tw) (acts : List Action) (s : System)
    (hrun : run acts (start env tw) = some s) :
    s.received = s.sent ++ s.loop.inHand ∧
    (s.loop.inHand = [] → s.sent = s.received) ∧
    s.sent = s.delivered ++ s.tw.Event.buf ∧
    s.tw.Event.cap = 10 ∧ s.tw.Event.buf.length ≤ 10 ∧
    (∀ e : FileEvent, s.loop = .sendEvent e →
      (s.tw.Event.buf.length = 10 → ∀ a : Action, a.isLoop = true → step a s = none) ∧
      (s.tw.Event.buf.length < 10 → ∃ s1, step .send s = some s1 ∧
        s1.sent = s.sent ++ [e] ∧ s1.tw.Event.buf = s.tw.Event.buf ++ [e] ∧
        s1.received = s.received) ∧
      (∀ (a : Action) (s1 : System), step a s = some s1 → a ≠ .send →
        s1.loop = .sendEvent e ∧ s1.sent = s.sent ∧ s1.received = s.received)) := by
  have htw : tw = ⟨Chan.make 10, Chan.make 10, 0, w⟩ := by
    simp only [New] at hnew
    cases hnew
    rfl
  have hinv0 : Inv (start env tw) := by
    subst htw
    simp [Inv, start, Loop.inHand, Chan.make]
  obtain ⟨⟨h1, h2, h3⟩, hcap⟩ := run_inv acts _ s hrun hinv0
  have hcap10 : s.tw.Event.cap = 10 := by
    rw [hcap, htw]
    rfl
  rw [hcap10] at h3
  refine ⟨h1, ?_, h2, hcap10, h3, ?_⟩
  · intro hh
    rw [h1, hh, List.append_nil]
  · intro e he
    refine ⟨?_, ?_, ?_⟩
    · intro hfull a ha
      cases hs : step a s with
      | none => rfl
      | some s1 =>
        exfalso
        rcases step_loop a s s1 hs ha with ⟨hsel, _⟩ | ⟨hsend, _, _⟩
        · rw [he] at hsel
          cases hsel
        · subst hsend
          simp only [step, fsNotifyHandler, he] at hs
          rw [trySend_full _ _ (by rw [hcap10, hfull])] at hs
          cases hs
    · intro hroom
      have hsend := trySend_room s.tw.Event e (by rw [hcap10]; exact hroom)
      refine ⟨{ s with tw := { s.tw with Event := { s.tw.Event with buf := s.tw.Event.buf ++ [e] } },
                       loop := .select, sent := s.sent ++ [e] }, ?_, rfl, rfl, rfl⟩
      simp only [step, fsNotifyHandler, he, hsend]
    · intro a s1 hs hne
      cases ha : a.isLoop with
      | false =>
        obtain ⟨hl, hsent, hrecv, _⟩ := step_env a s s1 hs ha
        exact ⟨by rw [hl, he], hsent, hrecv⟩
      | true =>
        exfalso
        rcases step_loop a s s1 hs ha with ⟨hsel, _⟩ | ⟨hsend, _, _⟩
        · rw [he] at hsel
          cases hsel
        · exact hne hsend

/-- C4, at the end of the run `actsFill`: the queue is full with ten events,
the loop holds the eleventh, and its send is not enabled. -/
theorem dispatch_no_loss_witness :
    New (.ok watcher0) = .ok tw0 ∧ run actsFill (start envT tw0) = some stateFull ∧
    stateFull.received = stateFull.sent ++ [evModify] ∧
    stateFull.tw.Event.buf.length = 10 ∧ step .send stateFull = none :=
  ⟨rfl, rfl, (dispatch_no_loss envT watcher0 tw0 rfl actsFill stateFull rfl).1, rfl,
    ((dispatch_no_loss envT watcher0 tw0 rfl actsFill stateFull rfl).2.2.2.2.2 evModify rfl).1
      rfl .send rfl⟩

/-- The loop stops only by taking the shutdown signal that a `Close` call
hands over, and that move does nothing else: it drains no raw channel, puts
nothing on an outbound channel and makes no registration call. -/
theorem step_stops (a : Action) (s s1 : System) (h : step a s = some s1)
    (hr : s.loop.state = .Running) (hs : s1.loop.state = .Stopped) :
    a = .recvQuit ∧ s.tw.quit = s1.tw.quit + 1 ∧ s.loop = .select ∧
    s1.tw.Event = s.tw.Event ∧ s1.tw.Error = s.tw.Error ∧ s1.tw.watcher = s.tw.watcher ∧
    s1.sent = s.sent ∧ s1.sentErrors = s.sentErrors ∧ s1.received = s.received ∧
    s1.delivered = s.delivered ∧ s1.env = s.env := by
  cases ha : a.isLoop with
  | false =>
    exfalso
    rw [(step_env a s s1 h ha).1, hr] at hs
    cases hs
  | true =>
    rcases step_loop a s s1 h ha with ⟨_, ⟨_, e, he⟩ | ⟨_, err, he⟩ | ⟨hq, _⟩⟩ | ⟨_, hsel, _⟩
    · rw [he] at hs; cases hs
    · rw [he] at hs; cases hs
    · subst hq
      simp only [step, fsNotifyHandler] at h
      split at h
      · rename_i n hl hn
        cases h
        exact ⟨rfl, hn, hl, rfl, rfl, rfl, rfl, rfl, rfl, rfl, rfl⟩
      · cases h
    · rw [hsel] at hs; cases hs

/-- C8. Errors are data: a raw error taken by the loop in its `select` puts
the loop at the send of that very error, still Running, with no
registration call and nothing appended to either outbound channel; from
there the only move of the loop is that send, which appends exactly that
error to the `Error` channel and nothing to the `Event` channel and returns
to the `select`; a move of the environment leaves the error in the hand of
the loop; and no move but the shutdown signal takes the loop from Running
to Stopped. -/
theorem errors_are_data (s : System) (err : GoError) (rest : List GoError)
    (hl : s.loop = .select) (hq : s.tw.watcher.Error = err :: rest) :
    (∃ s1, step .recvError s = some s1 ∧ s1.loop = .sendError err ∧
      s1.loop.state = .Running ∧ s1.tw.Event = s.tw.Event ∧ s1.tw.Error = s.tw.Error ∧
      s1.sent = s.sent ∧ s1.sentErrors = s.sentErrors ∧
      s1.tw.watcher.calls = s.tw.watcher.calls ∧
      s1.tw.watcher.watches = s.tw.watcher.watches ∧
      s1.tw.watcher.Error = rest ∧ s1.tw.watcher.Event = s.tw.watcher.Event ∧
      (s.tw.Error.buf.length < s.tw.Error.cap → ∃ s2, step .send s1 = some s2 ∧
        s2.tw.Error.buf = s.tw.Error.buf ++ [err] ∧ s2.tw.Event = s.tw.Event ∧
        s2.tw.watcher.calls = s.tw.watcher.calls ∧ s2.loop = .select ∧
        s2.loop.state = .Running)) ∧
    (∀ (t : System) (a : Action) (t1 : System), t.loop = .sendError err → a.isLoop = true →
      step a t = some t1 →
      a = .send ∧ t1.tw.Error.buf = t.tw.Error.buf ++ [err] ∧ t1.tw.Event = t.tw.Event ∧
      t1.tw.watcher = t.tw.watcher ∧ t1.loop = .select ∧ t1.loop.state = .Running) ∧
    (∀ (t : System) (a : Action) (t1 : System), t.loop = .sendError err → a.isLoop = false →
      step a t = some t1 → t1.loop = .sendError err) ∧
    (∀ (t : System) (a : Action) (t1 : System), step a t = some t1 →
      t.loop.state = .Running → t1.loop.state = .Stopped → a = .recvQuit) := by
  refine ⟨?_, ?_, ?_, ?_⟩
  · refine ⟨{ s with tw := { s.tw with watcher := { s.tw.watcher with Error := rest } },
                     loop := .sendError err }, ?_, rfl, rfl, rfl, rfl, rfl, rfl, rfl, rfl, rfl,
      rfl, ?_⟩
    · simp only [step, fsNotifyHandler, hl, hq]
    · intro hroom
      have hsend := trySend_room s.tw.Error err hroom
      refine ⟨{ s with tw := { s.tw with
                                 watcher := { s.tw.watcher with Error := rest },
                                 Error := { s.tw.Error with buf := s.tw.Error.buf ++ [err] } },
                       loop := .select, sentErrors := s.sentErrors ++ [err] }, ?_, rfl, rfl,
        rfl, rfl, rfl⟩
      simp only [step, fsNotifyHandler, hsend]
  · intro t a t1 ht ha hs
    rcases step_loop a t t1 hs ha with ⟨hsel, _⟩ | ⟨hsend, hsel, ⟨e, he, _⟩ | ⟨err1, he, hb, _, _, _, hE, hw⟩⟩
    · rw [ht] at hsel; cases hsel
    · rw [ht] at he; cases he
    · rw [ht] at he
      cases he
      exact ⟨hsend, hb, hE, hw, hsel, by rw [hsel]; rfl⟩
  · intro t a t1 ht ha hs
    rw [(step_env a t t1 hs ha).1, ht]
  · intro t a t1 hs hr hst
    exact (step_stops a t t1 hs hr hst).1

/-- C8, at a state with the raw error `event queue overflow` pending: the
loop takes it and its send puts it, alone, on the `Error` channel. -/
theorem errors_are_data_witness :
    stateErr.loop = .select ∧ stateErr.tw.watcher.Error = ["event queue overflow"] ∧
    (run [.recvError, .send] stateErr).map
        (fun s => (s.tw.Error.buf, s.tw.Event.buf, s.tw.watcher.calls, s.loop)) =
      some (["event queue overflow"], [], [], .select) ∧
    (∀ (t : System) (a : Action) (t1 : System), step a t = some t1 →
      t.loop.state = .Running → t1.loop.state = .Stopped → a = .recvQuit) :=
  ⟨rfl, rfl, rfl, (errors_are_data stateErr "event queue overflow" [] rfl rfl).2.2.2⟩

/-- C10. Coverage is extended only for created directories: a raw event
that is not a Create, or whose path cannot be statted, or whose path is not
a directory, is taken by the loop with no registration call, the watch set
unchanged, nothing put on the `Error` channel and the loop still Running at
the send of that event; with room in the queue the send appends the event
to the `Event` channel. -/
theorem no_registration_unless_created_dir (s : System) (e : FileEvent)
    (rest : List FileEvent) (hl : s.loop = .select) (hq : s.tw.watcher.Event = e :: rest)
    (h : e.IsCreate = false ∨ (∃ err, osStat s.env.fs e.Name = .error err) ∨
      (∃ info, osStat s.env.fs e.Name = .ok info ∧ info.IsDir = false)) :
    ∃ s1, step .recvEvent s = some s1 ∧ s1.loop = .sendEvent e ∧ s1.loop.state = .Running ∧
      s1.tw.watcher.calls = s.tw.watcher.calls ∧
      s1.tw.watcher.watches = s.tw.watcher.watches ∧
      s1.tw.Error = s.tw.Error ∧ s1.sentErrors = s.sentErrors ∧
      s1.tw.watcher.Error = s.tw.watcher.Error ∧ s1.tw.Event = s.tw.Event ∧
      (s.tw.Event.buf.length < s.tw.Event.cap → ∃ s2, step .send s1 = some s2 ∧
        s2.tw.Event.buf = s.tw.Event.buf ++ [e] ∧ s2.sent = s.sent ++ [e] ∧
        s2.tw.watcher.calls = s.tw.watcher.calls ∧
        s2.tw.watcher.watches = s.tw.watcher.watches ∧ s2.tw.Error = s.tw.Error) := by
  have hh := handleEvent_other s.env
    { s.tw with watcher := { s.tw.watcher with Event := rest } } e h
  refine ⟨{ s with tw := { s.tw with watcher := { s.tw.watcher with Event := rest } },
                   loop := .sendEvent e, received := s.received ++ [e] }, ?_, rfl, rfl, rfl,
    rfl, rfl, rfl, rfl, rfl, ?_⟩
  · simp only [step, fsNotifyHandler, hl, hq, hh]
  · intro hroom
    have hsend := trySend_room s.tw.Event e hroom
    refine ⟨{ s with tw := { s.tw with
                               watcher := { s.tw.watcher with Event := rest },
                               Event := { s.tw.Event with buf := s.tw.Event.buf ++ [e] } },
                     loop := .select, received := s.received ++ [e],
                     sent := s.sent ++ [e] }, ?_, rfl, rfl, rfl, rfl, rfl⟩
    simp only [step, fsNotifyHandler, hsend]

/-- C10, at a state with the raw event of the creation of `T/gone` pending,
a path that cannot be statted: the loop makes no registration call and
forwards the event. -/
theorem no_registration_unless_created_dir_witness :
    stateGone.loop = .select ∧
    stateGone.tw.watcher.Event = [⟨["T", "gone"], .Create⟩] ∧
    osStat stateGone.env.fs ["T", "gone"] = .error ErrNotExist ∧
    (run [.recvEvent, .send] stateGone).map
        (fun s => (s.tw.Event.buf, s.tw.watcher.calls, s.tw.watcher.watches, s.tw.Error.buf)) =
      some ([⟨["T", "gone"], .Create⟩], [], [], []) ∧
    (∃ s1, step .recvEvent stateGone = some s1 ∧
      s1.tw.watcher.calls = stateGone.tw.watcher.calls) :=
  ⟨rfl, rfl, rfl, rfl,
    (no_registration_unless_created_dir stateGone ⟨["T", "gone"], .Create⟩ [] rfl rfl
      (Or.inr (Or.inl ⟨ErrNotExist, rfl⟩))).imp
      (fun _ hs1 => ⟨hs1.1, hs1.2.2.2.1⟩)⟩

/-- No move of the dispatch goroutine is enabled once it has returned. -/
theorem step_returned (a : Action) (s : System) (hstop : s.loop = .returned)
    (ha : a.isLoop = true) : step a s = none := by
  cases hs : step a s with
  | none => rfl
  | some s1 =>
    exfalso
    rcases step_loop a s s1 hs ha with ⟨hsel, _⟩ | ⟨_, _, ⟨e, he, _⟩ | ⟨err, he, _⟩⟩
    · rw [hstop] at hsel; cases hsel
    · rw [hstop] at he; cases he
    · rw [hstop] at he; cases he

/-- From a state in which the loop has returned, every run keeps it
returned, and only the environment moves. -/
theorem run_returned (acts : List Action) (s s1 : System) (hstop : s.loop = .returned)
    (hrun : run acts s = some s1) :
    s1.loop = .returned ∧ s1.sent = s.sent ∧ s1.sentErrors = s.sentErrors ∧
    s1.received = s.received ∧
    (∃ k, s1.tw.Event.buf = s.tw.Event.buf.drop k) ∧
    (∃ k, s1.tw.Error.buf = s.tw.Error.buf.drop k) ∧
    (∃ more, s1.tw.watcher.Event = s.tw.watcher.Event ++ more) ∧
    (∃ more, s1.tw.watcher.Error = s.tw.watcher.Error ++ more) ∧
    ((∀ a ∈ acts, a.isRegistration = false) →
      s1.tw.watcher.calls = s.tw.watcher.calls ∧
      s1.tw.watcher.watches = s.tw.watcher.watches) := by
  induction acts generalizing s with
  | nil =>
    simp only [run] at hrun
    cases hrun
    exact ⟨hstop, rfl, rfl, rfl, ⟨0, rfl⟩, ⟨0, rfl⟩, ⟨[], by simp⟩, ⟨[], by simp⟩,
      fun _ => ⟨rfl, rfl⟩⟩
  | cons a acts ih =>
    obtain ⟨s0, hs, hr⟩ := run_cons a acts s s1 hrun
    have ha : a.isLoop = false := by
      cases hb : a.isLoop with
      | false => rfl
      | true =>
        rw [step_returned a s hstop hb] at hs
        cases hs
    obtain ⟨e1, e2, e3, e4, ⟨k1, e5⟩, ⟨k2, e6⟩, ⟨m1, e7⟩, ⟨m2, e8⟩⟩ := step_env a s s0 hs ha
    obtain ⟨f1, f2, f3, f4, ⟨j1, f5⟩, ⟨j2, f6⟩, ⟨n1, f7⟩, ⟨n2, f8⟩, f9⟩ :=
      ih s0 (by rw [e1, hstop]) hr
    refine ⟨f1, by rw [f2, e2], by rw [f3, e4], by rw [f4, e3], ⟨k1 + j1, ?_⟩, ⟨k2 + j2, ?_⟩,
      ⟨m1 ++ n1, ?_⟩, ⟨m2 ++ n2, ?_⟩, ?_⟩
    · rw [f5, e5, List.drop_drop, Nat.add_comm]
    · rw [f6, e6, List.drop_drop, Nat.add_comm]
    · rw [f7, e7, List.append_assoc]
    · rw [f8, e8, List.append_assoc]
    · intro hreg
      have hra : a.isRegistration = false := hreg a (List.mem_cons_self _ _)
      have hne : a ≠ .recvEvent := by
        intro hc
        rw [hc] at ha
        cases ha
      obtain ⟨g1, g2⟩ := (step_watcher a s s0 hs).2.2 hra hne
      obtain ⟨g3, g4⟩ := f9 (fun b hb => hreg b (List.mem_cons_of_mem _ hb))
      exact ⟨by rw [g3, g1], by rw [g4, g2]⟩

/-- C5. Shutdown finality. The loop is in one of two states, Running or
Stopped. `Close` closes the notifier and offers the shutdown signal, and
touches nothing else. The loop, in its `select`, takes the signal and is
Stopped; that move changes nothing but the place of the loop and the
pending signal (no raw event or error is drained, nothing is put on an
outbound channel, no registration call is made), and no other move stops
the loop. From the state in which the loop takes the signal, in every state
of every run: the loop is Stopped and none of its moves is enabled; nothing
has been appended to the `Event` or `Error` channel (the client can only
take from them); the raw events and errors that were pending in the
notifier are all still there; and, the client's own calls of `Watch` and
`WatchTree` apart, no registration call has been made. The same holds from
any state in which the loop is Stopped. -/
theorem shutdown_final (s : System) (hsel : s.loop = .select) (acts : List Action)
    (s1 : System) (hrun : run (.recvQuit :: acts) s = some s1) :
    (∀ l : Loop, l.state = .Running ∨ l.state = .Stopped) ∧
    (∀ t : System, ∃ t1, step .callClose t = some t1 ∧ t1.tw.watcher.isClosed = true ∧
      t1.tw.quit = t.tw.quit + 1 ∧ t1.loop = t.loop ∧ t1.tw.Event = t.tw.Event ∧
      t1.tw.Error = t.tw.Error ∧ t1.tw.watcher.Event = t.tw.watcher.Event ∧
      t1.tw.watcher.Error = t.tw.watcher.Error ∧
      t1.tw.watcher.calls = t.tw.watcher.calls ∧
      t1.tw.watcher.watches = t.tw.watcher.watches ∧ t1.sent = t.sent ∧
      t1.sentErrors = t.sentErrors) ∧
    (∀ (t : System) (n : Nat), t.loop = .select → t.tw.quit = n + 1 →
      step .recvQuit t = some { t with tw := { t.tw with quit := n }, loop := .returned }) ∧
    (∀ (t : System) (a : Action) (t1 : System), step a t = some t1 →
      t.loop.state = .Running → t1.loop.state = .Stopped →
      a = .recvQuit ∧ t.tw.quit = t1.tw.quit + 1 ∧ t.loop = .select ∧
      t1.tw.Event = t.tw.Event ∧ t1.tw.Error = t.tw.Error ∧ t1.tw.watcher = t.tw.watcher ∧
      t1.sent = t.sent ∧ t1.sentErrors = t.sentErrors ∧ t1.received = t.received ∧
      t1.delivered = t.delivered ∧ t1.env = t.env) ∧
    s.loop.state = .Running ∧ s1.loop.state = .Stopped ∧
    (∀ a : Action, a.isLoop = true → step a s1 = none) ∧
    s1.sent = s.sent ∧ s1.sentErrors = s.sentErrors ∧ s1.received = s.received ∧
    (∃ k, s1.tw.Event.buf = s.tw.Event.buf.drop k) ∧
    (∃ k, s1.tw.Error.buf = s.tw.Error.buf.drop k) ∧
    (∃ more, s1.tw.watcher.Event = s.tw.watcher.Event ++ more) ∧
    (∃ more, s1.tw.watcher.Error = s.tw.watcher.Error ++ more) ∧
    ((∀ a ∈ acts, a.isRegistration = false) →
      s1.tw.watcher.calls = s.tw.watcher.calls ∧
      s1.tw.watcher.watches = s.tw.watcher.watches) ∧
    (∀ (t : System) (more : List Action) (t1 : System), t.loop = .returned →
      run more t = some t1 →
      t1.loop.state = .Stopped ∧ (∀ a : Action, a.isLoop = true → step a t1 = none) ∧
      t1.sent = t.sent ∧ t1.sentErrors = t.sentErrors ∧ t1.received = t.received ∧
      (∃ k, t1.tw.Event.buf = t.tw.Event.buf.drop k) ∧
      (∃ k, t1.tw.Error.buf = t.tw.Error.buf.drop k) ∧
      (∃ later, t1.tw.watcher.Event = t.tw.watcher.Event ++ later) ∧
      (∃ later, t1.tw.watcher.Error = t.tw.watcher.Error ++ later) ∧
      ((∀ a ∈ more, a.isRegistration = false) →
        t1.tw.watcher.calls = t.tw.watcher.calls ∧
        t1.tw.watcher.watches = t.tw.watcher.watches)) := by
  obtain ⟨s0, hs0, hr⟩ := run_cons .recvQuit acts s s1 hrun
  have hrun0 : s.loop.state = .Running := by rw [hsel]; rfl
  have hstop0 : s0.loop = .returned := by
    have hloop : Action.recvQuit.isLoop = true := rfl
    rcases step_loop .recvQuit s s0 hs0 hloop with
      ⟨_, ⟨hq, _⟩ | ⟨hq, _⟩ | ⟨_, hret⟩⟩ | ⟨hq, _⟩
    · cases hq
    · cases hq
    · exact hret
    · cases hq
  obtain ⟨_, _, _, g1, g2, g3, g4, g5, g6, _, _⟩ :=
    step_stops .recvQuit s s0 hs0 hrun0 (by rw [hstop0]; rfl)
  obtain ⟨f1, f2, f3, f4, f5, f6, f7, f8, f9⟩ := run_returned acts s0 s1 hstop0 hr
  rw [g1] at f5
  rw [g2] at f6
  rw [g3] at f7 f8 f9
  refine ⟨?_, ?_, ?_, ?_, hrun0, by rw [f1]; rfl, fun a ha => step_returned a s1 f1 ha,
    by rw [f2, g4], by rw [f3, g5], by rw [f4, g6], f5, f6, f7, f8, f9, ?_⟩
  · intro l
    cases l
    · exact Or.inl rfl
    · exact Or.inl rfl
    · exact Or.inl rfl
    · exact Or.inr rfl
  · intro t
    exact ⟨_, rfl, rfl, rfl, rfl, rfl, rfl, rfl, rfl, rfl, rfl, rfl, rfl⟩
  · intro t n hl hq
    simp only [step, fsNotifyHandler, hl, hq]
  · intro t a t1 hs hr hst
    exact step_stops a t t1 hs hr hst
  · intro t more t1 ht hrt
    obtain ⟨e1, e2, e3, e4, e5, e6, e7, e8, e9⟩ := run_returned more t t1 ht hrt
    exact ⟨by rw [e1]; rfl, fun a ha => step_returned a t1 e1 ha, e2, e3, e4, e5, e6, e7, e8,
      e9⟩

/-- C5, from `stateClosing`: the loop takes the shutdown signal; then, while
the file system changes, the notifier reports an error and the client takes
the queued event, the raw event that was pending stays in the notifier and
nothing is forwarded. -/
theorem shutdown_final_witness :
    stateClosing.loop = .select ∧ run (.recvQuit :: actsAfter) stateClosing = some stateAfter ∧
    stateAfter.sent = stateClosing.sent ∧ step .recvEvent stateAfter = none ∧
    stateClosing.tw.watcher.Event = [evCreateD] ∧
    stateAfter.tw.watcher.Event = [evCreateD] ∧
    (run [.recvQuit] stateClosing).map
        (fun t => (t.loop, t.tw.Event.buf, t.tw.watcher.Event, t.tw.watcher.calls)) =
      some (.returned, [evModify], [evCreateD], [["T"], ["T"]]) :=
  ⟨rfl, rfl, (shutdown_final stateClosing rfl actsAfter stateAfter rfl).2.2.2.2.2.2.2.1,
    (shutdown_final stateClosing rfl actsAfter stateAfter rfl).2.2.2.2.2.2.1 .recvEvent rfl,
    rfl, rfl, rfl⟩

/-- Along a run the log of registration calls grows at its end and the watch
set keeps its paths. -/
theorem run_watcher (acts : List Action) (s s1 : System) (hrun : run acts s = some s1) :
    (∃ more, s1.tw.watcher.calls = s.tw.watcher.calls ++ more) ∧
    (∀ q ∈ s.tw.watcher.watches, q ∈ s1.tw.watcher.watches) := by
  induction acts generalizing s with
  | nil =>
    simp only [run] at hrun
    cases hrun
    exact ⟨⟨[], by simp⟩, fun q hq => hq⟩
  | cons a acts ih =>
    obtain ⟨s0, hs, hr⟩ := run_cons a acts s s1 hrun
    obtain ⟨⟨m1, h1⟩, h2, _⟩ := step_watcher a s s0 hs
    obtain ⟨⟨m2, h3⟩, h4⟩ := ih s0 hr
    exact ⟨⟨m1 ++ m2, by rw [h3, h1, List.append_assoc]⟩, fun q hq => h4 q (h2 q hq)⟩

/-- The move in which the loop takes a Create event whose path stats as a
directory: `WatchTree` on that path, then the loop stands at the send. -/
theorem recvEvent_create_dir (s : System) (e : FileEvent) (rest : List FileEvent)
    (info : FileInfo) (hl : s.loop = .select) (hq : s.tw.watcher.Event = e :: rest)
    (hc : e.IsCreate = true) (hs : osStat s.env.fs e.Name = .ok info)
    (hd : info.IsDir = true) :
    step .recvEvent s =
      some { s with tw := WatchTree s.env
                      { s.tw with watcher := { s.tw.watcher with Event := rest } } e.Name,
                    loop := .sendEvent e, received := s.received ++ [e] } := by
  have hh := handleEvent_create_dir s.env
    { s.tw with watcher := { s.tw.watcher with Event := rest } } e info hc hs hd
  simp only [step, fsNotifyHandler, hl, hq, hh]

/-- C1, as the code has it. Register-before-forward: when the loop takes a
Create event whose path stats as a directory, that one move makes all the
registration calls of `WatchTree(event.Name)`, for the path itself and for
every directory beneath it that the walk reaches, and leaves the event in
the hand of the loop, not yet sent; the event enters the `Event` channel
only by the send that follows. Hence in every later state, in particular
whenever the event is in the outbound channel, the created directory and
each directory the walk reached are in the watch set, provided the notifier
accepted their registration. -/
theorem register_before_forward (s : System) (e : FileEvent) (rest : List FileEvent)
    (info : FileInfo) (hl : s.loop = .select) (hq : s.tw.watcher.Event = e :: rest)
    (hc : e.IsCreate = true) (hs : osStat s.env.fs e.Name = .ok info)
    (hd : info.IsDir = true) :
    ∃ s1, step .recvEvent s = some s1 ∧ s1.loop = .sendEvent e ∧
      s1.tw.Event = s.tw.Event ∧ s1.sent = s.sent ∧
      (∃ new : List Path, s1.tw.watcher.calls = s.tw.watcher.calls ++ new ∧ e.Name ∈ new ∧
        ∀ (n : Node) (q : Path) (readErr : Option GoError) (entries : List (String × Node)),
          find s.env.fs e.Name = some n → Reach e.Name n q (.dir readErr entries) → q ∈ new) ∧
      (∀ s2 : System, step .send s1 = some s2 →
        s2.tw.Event.buf = s.tw.Event.buf ++ [e] ∧ s2.tw.watcher = s1.tw.watcher) ∧
      (∀ (acts : List Action) (s2 : System), run acts s1 = some s2 →
        (∃ more, s2.tw.watcher.calls = s1.tw.watcher.calls ++ more) ∧
        (s.env.regErr e.Name = none → e.Name ∈ s2.tw.watcher.watches) ∧
        (∀ (n : Node) (q : Path) (readErr : Option GoError) (entries : List (String × Node)),
          find s.env.fs e.Name = some n → Reach e.Name n q (.dir readErr entries) →
          s.env.regErr q = none → q ∈ s2.tw.watcher.watches)) := by
  have hstep := recvEvent_create_dir s e rest info hl hq hc hs hd
  have hself : e.Name ∈ e.Name :: walkRoot s.env.fs e.Name := List.mem_cons_self _ _
  have hreach : ∀ (n : Node) (q : Path) (readErr : Option GoError)
      (entries : List (String × Node)), find s.env.fs e.Name = some n →
      Reach e.Name n q (.dir readErr entries) → q ∈ e.Name :: walkRoot s.env.fs e.Name :=
    fun n q readErr entries hfind hr => List.mem_cons_of_mem _ (mem_walkRoot_of_reach hfind hr)
  refine ⟨_, hstep, rfl, rfl, rfl, ⟨e.Name :: walkRoot s.env.fs e.Name, ?_, hself, hreach⟩,
    ?_, ?_⟩
  · show (WatchTree s.env _ e.Name).watcher.calls = _
    rw [WatchTree_watcher, registerAll_calls]
  · intro s2 hs2
    have hloop : Action.send.isLoop = true := rfl
    rcases step_loop .send _ s2 hs2 hloop with
      ⟨hsel, _⟩ | ⟨_, _, ⟨e1, he, hb, _, _, _, _, hwt⟩ | ⟨err, he, _⟩⟩
    · cases hsel
    · cases he
      exact ⟨hb, hwt⟩
    · cases he
  · intro acts s2 hrun
    obtain ⟨hcalls, hmono⟩ := run_watcher acts _ s2 hrun
    refine ⟨hcalls, ?_, ?_⟩
    · intro hreg
      exact hmono _ ((WatchTree_mem_watches s.env _ e.Name e.Name hself).mpr (Or.inr hreg))
    · intro n q readErr entries hfind hr hreg
      exact hmono _ ((WatchTree_mem_watches s.env _ e.Name q
        (hreach n q readErr entries hfind hr)).mpr (Or.inr hreg))

/-- C1, at `stateCreated`: the loop takes the Create event of `T/D`, and the
directory `T/D/Z` beneath it is in the watch set once the event has been
sent. -/
theorem register_before_forward_witness :
    stateCreated.loop = .select ∧ stateCreated.tw.watcher.Event = [evCreateD] ∧
    evCreateD.IsCreate = true ∧ osStat stateCreated.env.fs evCreateD.Name = .ok ⟨true⟩ ∧
    (∃ s1, step .recvEvent stateCreated = some s1 ∧ s1.loop = .sendEvent evCreateD ∧
      ∀ s2 : System, run [.send] s1 = some s2 → ["T", "D", "Z"] ∈ s2.tw.watcher.watches) :=
  ⟨rfl, rfl, rfl, rfl,
    (register_before_forward stateCreated evCreateD [] ⟨true⟩ rfl rfl rfl rfl rfl).imp
      (fun _ h => ⟨h.1, h.2.1, fun s2 hrun =>
        (h.2.2.2.2.2.2 [.send] s2 hrun).2.2 _ ["T", "D", "Z"] none [] rfl
          (Reach.child ["T", "D"] "Z" Reach.base (List.Mem.tail _ (List.Mem.head _))) rfl⟩)⟩

/-- C1 as stated fails. At the end of the run `actsRefuse` the Create event
of `T/D`, a path that stats as a directory, is in the outbound channel,
while `T/D`, whose registration the notifier refused, is not in the watch
set; and the directory `T/D/X/Y`, which existed beneath `T/D` all along
under a directory that cannot be read, is not in the watch set either: no
registration call was made for it. -/
theorem register_before_forward_counterexample :
    run actsRefuse (start envT0 tw0) = some stateRefused ∧
    evCreateD.IsCreate = true ∧ osStat stateRefused.env.fs evCreateD.Name = .ok ⟨true⟩ ∧
    evCreateD ∈ stateRefused.tw.Event.buf ∧
    evCreateD.Name ∉ stateRefused.tw.watcher.watches ∧
    osStat stateRefused.env.fs ["T", "D", "X", "Y"] = .ok ⟨true⟩ ∧
    ["T", "D", "X", "Y"] ∉ stateRefused.tw.watcher.watches ∧
    ["T", "D", "X", "Y"] ∉ stateRefused.tw.watcher.calls :=
  ⟨rfl, rfl, rfl, by decide, by decide, rfl, by decide, by decide⟩

/-- No move drops, repeats or reorders an entry of the pipeline: a move
leaves the pipeline as it is, or is a change of the file system whose raw
event the notifier adds at its end. -/
theorem step_pipeline (a : Action) (s s1 : System) (h : step a s = some s1) :
    pipeline s1 = pipeline s ∨
    (∃ (env : Env) (e : FileEvent), a = .fsOp env e ∧ pipeline s1 = pipeline s ++ [e]) := by
  unfold pipeline
  cases a with
  | recvEvent =>
    simp only [step, fsNotifyHandler] at h
    split at h
    · rename_i event rest hl hq
      cases h
      obtain ⟨ps, hps⟩ := handleEvent_eq s.env
        { s.tw with watcher := { s.tw.watcher with Event := rest } } event
      left
      simp only [hps, registerAll_Event, Loop.inHand]
      rw [hl, hq]
      simp [Loop.inHand]
    · cases h
  | recvError =>
    simp only [step, fsNotifyHandler] at h
    split at h
    · rename_i err rest hl hq
      cases h
      left
      rw [hl]
      rfl
    · cases h
  | recvQuit =>
    simp only [step, fsNotifyHandler] at h
    split at h
    · rename_i n hl hq
      cases h
      left
      rw [hl]
      rfl
    · cases h
  | send =>
    simp only [step, fsNotifyHandler] at h
    split at h
    · rename_i event hl
      split at h
      · rename_i c hc
        cases h
        left
        simp only [Loop.inHand, (trySend_some _ _ _ hc).2.1]
        rw [hl]
        simp [Loop.inHand]
      · cases h
    · rename_i err hl
      split at h
      · cases h
        left
        rw [hl]
        rfl
      · cases h
    · cases h
  | fsOp env e =>
    simp only [step] at h
    cases h
    by_cases hn : (!s.tw.watcher.isClosed && decide (e.Name.dropLast ∈ s.tw.watcher.watches)) = true
    · right
      refine ⟨env, e, rfl, ?_⟩
      simp only [Watcher.notify, hn, if_true, List.append_assoc]
    · left
      simp only [Watcher.notify, hn]
      rfl
  | notifierError err =>
    simp only [step] at h
    cases h
    exact Or.inl rfl
  | takeEvent =>
    simp only [step] at h
    split at h
    · rename_i x c hc
      cases h
      left
      simp only [(tryRecv_some _ _ _ hc).1]
      simp
    · cases h
  | takeError =>
    simp only [step] at h
    split at h
    · cases h
      exact Or.inl rfl
    · cases h
  | callWatchTree path =>
    simp only [step] at h
    cases h
    left
    simp only [WatchTree_watcher, registerAll_Event]
    rfl
  | callWatch path =>
    simp only [step] at h
    cases h
    left
    simp only [Watch, Watch_Event]
  | callClose =>
    simp only [step] at h
    cases h
    exact Or.inl rfl

/-- Along a run the pipeline only grows at its end. -/
theorem run_pipeline (acts : List Action) (s s1 : System) (hrun : run acts s = some s1) :
    ∃ later : List FileEvent, pipeline s1 = pipeline s ++ later := by
  induction acts generalizing s with
  | nil =>
    simp only [run] at hrun
    cases hrun
    exact ⟨[], by simp⟩
  | cons a acts ih =>
    obtain ⟨s0, hs, hr⟩ := run_cons a acts s s1 hrun
    obtain ⟨l2, h2⟩ := ih s0 hr
    rcases step_pipeline a s s0 hs with h1 | ⟨_, e, _, h1⟩
    · exact ⟨l2, by rw [h2, h1]⟩
    · exact ⟨e :: l2, by rw [h2, h1]; simp⟩

/-- C2, as the code has it. When the loop takes the Create event of a
directory `D` whose registration the notifier accepts, `D` is registered in
that move, before the event is sent. From then on, in every state of every
run in which the notifier is still open (so in particular once the client
has seen the Create event of `D`), a change of a path directly inside `D`
is caught: the notifier queues its raw event, which becomes the last entry
of the pipeline. In every later state the pipeline (events taken by the
client, outbound queue, hand of the loop, raw channel, in this order) is
the pipeline of before the change, then that event, then what came later:
this very occurrence is neither dropped nor repeated nor overtaken, and
the client takes it right after the events that were ahead of it. -/
theorem no_missed_event_once_registered (s : System) (e : FileEvent)
    (rest : List FileEvent) (info : FileInfo) (hl : s.loop = .select)
    (hq : s.tw.watcher.Event = e :: rest) (hc : e.IsCreate = true)
    (hs : osStat s.env.fs e.Name = .ok info) (hd : info.IsDir = true)
    (hreg : s.env.regErr e.Name = none) :
    (∃ s1, step .recvEvent s = some s1 ∧ s1.loop = .sendEvent e ∧
      s1.tw.Event = s.tw.Event ∧ e.Name ∈ s1.tw.watcher.watches) ∧
    (∀ (acts : List Action) (s2 : System), run (.recvEvent :: acts) s = some s2 →
      s2.tw.watcher.isClosed = false →
      ∀ (env : Env) (f : FileEvent), f.Name.dropLast = e.Name →
        ∃ s3, step (.fsOp env f) s2 = some s3 ∧
          s3.tw.watcher.Event = s2.tw.watcher.Event ++ [f] ∧
          pipeline s3 = pipeline s2 ++ [f] ∧
          ∀ (more : List Action) (s4 : System), run more s3 = some s4 →
            (∃ later : List FileEvent, pipeline s4 = pipeline s2 ++ f :: later) ∧
            ((pipeline s2).length < s4.delivered.length →
              s4.delivered.take ((pipeline s2).length + 1) = pipeline s2 ++ [f])) := by
  have hstep := recvEvent_create_dir s e rest info hl hq hc hs hd
  have hin : e.Name ∈ (WatchTree s.env
      { s.tw with watcher := { s.tw.watcher with Event := rest } } e.Name).watcher.watches :=
    (WatchTree_mem_watches s.env _ e.Name e.Name (List.mem_cons_self _ _)).mpr (Or.inr hreg)
  refine ⟨⟨_, hstep, rfl, rfl, hin⟩, ?_⟩
  intro acts s2 hrun hopen env f hf
  obtain ⟨s0, hs0, hr⟩ := run_cons .recvEvent acts s s2 hrun
  rw [hstep] at hs0
  cases hs0
  have hw : f.Name.dropLast ∈ s2.tw.watcher.watches := by
    rw [hf]
    exact (run_watcher acts _ s2 hr).2 _ hin
  have hn : s2.tw.watcher.notify f = { s2.tw.watcher with Event := s2.tw.watcher.Event ++ [f] } := by
    simp [Watcher.notify, hopen, hw]
  have hp3 : pipeline { s2 with env := env,
                                tw := { s2.tw with watcher := s2.tw.watcher.notify f } } =
      pipeline s2 ++ [f] := by
    simp only [pipeline, hn, List.append_assoc]
  refine ⟨{ s2 with env := env, tw := { s2.tw with watcher := s2.tw.watcher.notify f } }, rfl,
    by rw [hn], hp3, ?_⟩
  intro more s4 hrun4
  obtain ⟨later, hlater⟩ := run_pipeline more _ s4 hrun4
  rw [hp3] at hlater
  have heq : pipeline s4 = pipeline s2 ++ f :: later := by
    rw [hlater]
    simp
  refine ⟨⟨later, heq⟩, ?_⟩
  intro hlen
  have hp4 : pipeline s4 =
      s4.delivered ++ (s4.tw.Event.buf ++ (s4.loop.inHand ++ s4.tw.watcher.Event)) := by
    simp [pipeline]
  have hpre : s4.delivered.take ((pipeline s2).length + 1) =
      (pipeline s4).take ((pipeline s2).length + 1) := by
    rw [hp4, List.take_append_of_le_length (by omega)]
  rw [hpre, heq]
  have h1 : pipeline s2 ++ f :: later = (pipeline s2 ++ [f]) ++ later := by simp
  rw [h1, List.take_append_of_le_length (by simp), List.take_of_length_le (by simp)]

/-- C2, from `stateCreatedD`: once the loop has registered `T/D` and the
client has taken its Create event, the writing of `T/D/F` is caught, and
after the loop has taken it the pipeline is the Create event of `T/D`
followed by that of `T/D/F`. -/
theorem no_missed_event_once_registered_witness :
    stateCreatedD.loop = .select ∧ stateCreatedD.tw.watcher.Event = [evCreateD] ∧
    evCreateD.IsCreate = true ∧ osStat stateCreatedD.env.fs evCreateD.Name = .ok ⟨true⟩ ∧
    stateCreatedD.env.regErr evCreateD.Name = none ∧
    run [.recvEvent, .send, .takeEvent] stateCreatedD = some stateObserved ∧
    stateObserved.tw.watcher.isClosed = false ∧ evCreateF.Name.dropLast = evCreateD.Name ∧
    pipeline stateObserved = [evCreateD] ∧
    (∃ s3, step (.fsOp envF evCreateF) stateObserved = some s3 ∧
      s3.tw.watcher.Event = [evCreateF] ∧
      ∀ s4 : System, run [.recvEvent] s3 = some s4 →
        ∃ later : List FileEvent, pipeline s4 = [evCreateD] ++ evCreateF :: later) :=
  ⟨rfl, rfl, rfl, rfl, rfl, rfl, rfl, rfl, rfl,
    ((no_missed_event_once_registered stateCreatedD evCreateD [] ⟨true⟩ rfl rfl rfl rfl rfl
      rfl).2 [.send, .takeEvent] stateObserved rfl rfl envF evCreateF rfl).imp
      (fun _ h => ⟨h.1, h.2.1, fun s4 hrun => (h.2.2.2 [.recvEvent] s4 hrun).1⟩)⟩

/-- C2 as stated fails. In the run `actsMissed` the directory `T/D` is
created in the watched directory `T` and the file `T/D/F` is written in it
before the loop has registered `T/D`: the notifier queues nothing for the
file (after the write its raw channel holds the Create event of `T/D`
alone). At the end of the run the client has taken the Create event of
`T/D`, the file exists, and no event about it is anywhere: the raw channel
and the outbound queue are empty, the loop holds nothing, and the client
has received the Create event of `T/D` only. -/
theorem no_missed_event_counterexample :
    (run (actsMissed.take 2) (start envT0 tw0)).map (fun s => s.tw.watcher.watches) =
      some [["T"]] ∧
    (run (actsMissed.take 3) (start envT0 tw0)).map (fun s => s.tw.watcher.Event) =
      some [evCreateD] ∧
    run actsMissed (start envT0 tw0) = some stateMissed ∧
    osStat stateMissed.env.fs evCreateF.Name = .ok ⟨false⟩ ∧
    stateMissed.delivered = [evCreateD] ∧ stateMissed.tw.watcher.Event = [] ∧
    stateMissed.loop.inHand = [] ∧ stateMissed.tw.Event.buf = [] ∧
    pipeline stateMissed = [evCreateD] ∧ evCreateF ∉ pipeline stateMissed :=
  ⟨rfl, rfl, rfl, rfl, rfl, rfl, rfl, rfl, rfl, by decide⟩

end Treewatcher
